import Mathlib

/-!
Verification of the codesearch-rs trigram index against its specification.

This file gives a shallow embedding, in Lean 4, of the parts of the
codesearch-rs repository that the checked claims concern: the two varint
codecs, the posting-list delta transformer and its decoders, the external
sort and K-way merge of posting entries, the trigram stream with its
binary/UTF-8/line-length gates, the index writer, the query evaluator of
the index reader, the regex-derived trigram query algebra, and the index
merger.  Machine integers are modelled as `Nat` with explicit `% 2^w`
where wrap-around matters; fallible operations return `Except` or
`Option`.  Each embedded definition names the Rust item it is translated
from.
-/

namespace Codesearch

/-! ## Varint codecs

Two codecs coexist in the repository: `src/src/index/varint.rs` (used on the
write path) and `src/src/libvarint/src/lib.rs` (used on the read path).
Their decoders are textually identical; their encoders differ.
-/

/-- Decoder loop of `read_uvarint` (identical in `src/src/index/varint.rs`
lines 8-23 and `src/src/libvarint/src/lib.rs` lines 8-23).  The arguments
`i`, `s`, `x` are the loop index, the shift and the accumulator; on the
final byte it returns `(value, bytes_consumed)`, and on overrun it returns
the error payload the Rust code returns. -/
def readUvarintLoop : List Nat → Nat → Nat → Nat → Except Nat (Nat × Nat)
  | [], _, _, _ => .error 0
  | b :: rest, i, s, x =>
    if b < 0x80 then
      if i > 9 ∨ (i = 9 ∧ b > 1) then .error (i + 1)
      else .ok (x ||| (b <<< s), i + 1)
    else readUvarintLoop rest (i + 1) (s + 7) (x ||| ((b &&& 0x7f) <<< s))

/-- Entry point of `read_uvarint`: start the loop with index, shift and
accumulator zero. -/
def read_uvarint (b : List Nat) : Except Nat (Nat × Nat) :=
  readUvarintLoop b 0 0 0

namespace Libvarint

/-- Encoder `write_uvarint` of `src/src/libvarint/src/lib.rs` lines 26-36:
while `x >= 0x80` emit `((x & 0xff) as u8) | 0x80` and shift `x` right by
7; finally emit `(x & 0xff) as u8`.  Bytes are collected in emission
order. -/
def write_uvarint (x : Nat) : List Nat :=
  if x < 0x80 then [x % 256]
  else ((x % 256) ||| 0x80) :: write_uvarint (x >>> 7)
termination_by x
decreasing_by
  simp only [Nat.shiftRight_eq_div_pow]
  exact Nat.div_lt_self (by omega) (by norm_num)

end Libvarint

namespace IndexVarint

/-- Encoder `write_uvarint` of `src/src/index/varint.rs` lines 26-48 (the
same function also appears as `IndexWriter::write_uvarint` in
`src/src/index/write.rs` lines 309-331): a branch per encoded length,
where every byte after the first is `(x >> 7k) & 0xff` with no
continuation bit forced, and the five-byte branch repeats `x >> 21`. -/
def write_uvarint (x : Nat) : List Nat :=
  if x < 2^7 then [x % 256]
  else if x < 2^14 then
    [((x ||| 0x80) % 256), (x >>> 7) % 256]
  else if x < 2^21 then
    [((x ||| 0x80) % 256), (x >>> 7) % 256, (x >>> 14) % 256]
  else if x < 2^28 then
    [((x ||| 0x80) % 256), (x >>> 7) % 256, (x >>> 14) % 256, (x >>> 21) % 256]
  else
    [((x ||| 0x80) % 256), (x >>> 7) % 256, (x >>> 14) % 256, (x >>> 21) % 256,
     (x >>> 21) % 256]

end IndexVarint

/-! ### Round-trip for the libvarint codec -/

theorem lor_low_eq_add {a b s : Nat} (h : a < 2^s) : a ||| (b <<< s) = a + b * 2^s := by
  rw [Nat.shiftLeft_eq, Nat.or_comm, Nat.mul_comm b (2^s), ← Nat.mul_add_lt_is_or h b]
  omega

set_option maxRecDepth 4000 in
theorem or128_eq (y : Nat) (h : y < 256) : y ||| 128 = 128 + y % 128 := by
  revert h
  revert y
  decide

set_option maxRecDepth 4000 in
theorem and127_eq (y : Nat) (h : y < 128) : (128 + y) &&& 127 = y := by
  revert h
  revert y
  decide

theorem write_uvarint_length_le (k : Nat) :
    ∀ x, x < 2^(7*k) → (Libvarint.write_uvarint x).length ≤ k + 1 := by
  induction k with
  | zero =>
    intro x hx
    interval_cases x
    simp [Libvarint.write_uvarint]
  | succ k ih =>
    intro x hx
    rw [Libvarint.write_uvarint]
    by_cases h : x < 0x80
    · simp [h]
    · simp only [h, if_false, List.length_cons]
      have hx7 : x >>> 7 < 2^(7*k) := by
        rw [Nat.shiftRight_eq_div_pow]
        have : x < 2^(7*k) * 2^7 := by
          rw [← pow_add] at *
          have : 7 * k + 7 = 7 * (k+1) := by ring
          rw [this]
          exact hx
        omega
      have := ih (x >>> 7) hx7
      omega

theorem readUvarintLoop_write (x : Nat) :
    ∀ i s acc rest, acc < 2^s → i + (Libvarint.write_uvarint x).length ≤ 9 →
    readUvarintLoop (Libvarint.write_uvarint x ++ rest) i s acc =
      .ok (acc + x * 2^s, i + (Libvarint.write_uvarint x).length) := by
  induction x using Nat.strong_induction_on with
  | _ x ih =>
    intro i s acc rest hacc hlen
    rw [Libvarint.write_uvarint]
    rw [Libvarint.write_uvarint] at hlen
    by_cases h : x < 0x80
    · simp only [h, if_true, List.length_cons, List.length_nil] at hlen ⊢
      have hx : x % 256 = x := Nat.mod_eq_of_lt (by omega)
      simp only [hx, List.cons_append, List.nil_append, List.length_cons,
        List.length_nil, readUvarintLoop]
      have hb : x < 0x80 := h
      rw [if_pos hb]
      rw [if_neg (show ¬(i > 9 ∨ (i = 9 ∧ x > 1)) from by omega)]
      rw [lor_low_eq_add hacc]
    · simp only [h, if_false, List.length_cons] at hlen ⊢
      have hor : (x % 256) ||| 0x80 = 128 + x % 128 := by
        have h1 : x % 256 < 256 := Nat.mod_lt _ (by omega)
        have := or128_eq (x % 256) h1
        rw [this, Nat.mod_mod_of_dvd]
        exact ⟨2, rfl⟩
      simp only [List.cons_append, readUvarintLoop]
      rw [hor]
      rw [if_neg (by omega : ¬ (128 + x % 128 < 0x80))]
      have hand : ((128 + x % 128) &&& 0x7f) = x % 128 :=
        and127_eq _ (Nat.mod_lt _ (by omega))
      rw [hand]
      have hacc2 : acc ||| ((x % 128) <<< s) = acc + (x % 128) * 2^s :=
        lor_low_eq_add hacc
      rw [hacc2]
      have hlt : acc + (x % 128) * 2^s < 2^(s+7) := by
        have h128 : x % 128 < 128 := Nat.mod_lt _ (by omega)
        have : 2^(s+7) = 2^s * 128 := by rw [pow_add]; norm_num
        rw [this]
        nlinarith [Nat.one_le_two_pow (n := s)]
      have hdec : x >>> 7 < x := by
        rw [Nat.shiftRight_eq_div_pow]
        exact Nat.div_lt_self (by omega) (by norm_num)
      have := ih (x >>> 7) hdec (i+1) (s+7) (acc + (x % 128) * 2^s) rest hlt (by omega)
      simp only [List.append_eq] at this ⊢
      rw [this]
      congr 2
      · rw [Nat.shiftRight_eq_div_pow]
        have h7 : (2:Nat)^7 = 128 := by norm_num
        rw [h7, pow_add, h7]
        conv_rhs => rw [show x = 128 * (x / 128) + x % 128 from (Nat.div_add_mod x 128).symm]
        ring
      · omega

/-- Evaluation of the `index::varint` encoder at 32768 followed by the
shared decoder: the middle byte `(x >> 7) & 0xff = 0` lacks its
continuation bit, so decoding stops after two bytes with value 0. -/
theorem indexVarint_breaks_at_32768 :
    IndexVarint.write_uvarint 32768 = [128, 0, 2] ∧
    read_uvarint (IndexVarint.write_uvarint 32768) = .ok (0, 2) := by
  constructor <;> rfl

/-- Claim C2: the round-trip `read_uvarint (write_uvarint n) = (n, count)`
holds for every `n < 2^32` for the libvarint codec (the read path), but
fails for the `index::varint` encoder (the write path) at `n = 32768`,
which encodes to `[0x80, 0x00, 0x02]` and decodes to `(0, 2)`. -/
theorem claim_C2_varint_roundtrip :
    (∀ n, n < 2^32 →
      read_uvarint (Libvarint.write_uvarint n) =
        .ok (n, (Libvarint.write_uvarint n).length)) ∧
    read_uvarint (IndexVarint.write_uvarint 32768) = .ok (0, 2) := by
  refine ⟨fun n hn => ?_, indexVarint_breaks_at_32768.2⟩
  have hlen : (Libvarint.write_uvarint n).length ≤ 6 := by
    have hn5 : n < 2^(7*5) := by norm_num at *; omega
    have := write_uvarint_length_le 5 n hn5
    omega
  have := readUvarintLoop_write n 0 0 0 [] (by norm_num) (by omega)
  rw [List.append_nil] at this
  rw [read_uvarint, this]
  norm_num

/-- Witness for claim C2: the round-trip at the concrete input 300. -/
theorem claim_C2_varint_roundtrip_witness :
    read_uvarint (Libvarint.write_uvarint 300) = .ok (300, 2) := by
  have := claim_C2_varint_roundtrip.1 300 (by norm_num)
  simpa [Libvarint.write_uvarint] using this

/-! ## Posting-list delta encoding

The writer turns a strictly increasing file-id list into deltas with
wrapping u32 subtraction against a previous value initialised to
`u32::MAX` (`Transformer` and `DeltaIter` in
`src/src/index/writer/postinglist.rs` lines 87-134), terminated by a zero.
The merge read path recovers ids with `old_id.wrapping_add(delta)` from
`u32::MAX` (`PostMapReader::next_id` in
`src/src/index/merge/postmapreader.rs` line 81); `PostReader::next` in
`src/src/libcsearch/src/reader/read.rs` lines 428-451 does the same
computation in `i64` arithmetic starting from -1.
-/

/-- Largest u32 value, the initial state of the delta transformer. -/
def u32Max : Nat := 2^32 - 1

/-- Wrapping u32 subtraction, as `Wrapping(value) - Wrapping(self.last_value)`
in `Transformer::next_value`. -/
def wsub32 (a b : Nat) : Nat := (2^32 + a % 2^32 - b % 2^32) % 2^32

/-- Wrapping u32 addition, as `self.old_id.wrapping_add(delta)` in
`PostMapReader::next_id`. -/
def wadd32 (a b : Nat) : Nat := (a + b) % 2^32

/-- The delta transformer applied along a file-id list: each element is
emitted as its wrapping difference from the previous element, with `last`
carrying the transformer state (`Transformer::next_value`). -/
def deltaLoop (last : Nat) : List Nat → List Nat
  | [] => []
  | v :: rest => wsub32 v last :: deltaLoop v rest

/-- The full output of `DeltaIter` for a file-id list: the transformed
deltas followed by the single trailing zero
(`DeltaIter::next`, `wrote_trailing_zero`). -/
def deltaIter (fileIds : List Nat) : List Nat :=
  deltaLoop u32Max fileIds ++ [0]

/-- The delta decoder: starting from `prev`, wrapping-add each delta and
emit the running value (the `old_id` recurrence of
`PostMapReader::next_id`). -/
def decodeDeltas (prev : Nat) : List Nat → List Nat
  | [] => []
  | d :: rest => wadd32 prev d :: decodeDeltas (wadd32 prev d) rest

theorem deltaLoop_length (last : Nat) (l : List Nat) :
    (deltaLoop last l).length = l.length := by
  induction l generalizing last with
  | nil => rfl
  | cons v rest ih => simp [deltaLoop, ih]

theorem wadd32_wsub32 (v last : Nat) (hv : v < 2^32) (_hl : last < 2^32) :
    wadd32 last (wsub32 v last) = v := by
  simp only [wadd32, wsub32]
  omega

theorem decode_deltaLoop (l : List Nat) :
    ∀ last, last < 2^32 → (∀ x ∈ l, x < 2^32) →
    decodeDeltas last (deltaLoop last l) = l := by
  induction l with
  | nil => intro last _ _; rfl
  | cons v rest ih =>
    intro last hlast hmem
    have hv : v < 2^32 := hmem v (by simp)
    simp only [deltaLoop, decodeDeltas]
    rw [wadd32_wsub32 v last hv hlast]
    rw [ih v hv (fun x hx => hmem x (by simp [hx]))]

/-- Claim C3: for a strictly increasing u32 file-id sequence, the writer
delta transformer emits wrapping differences from a previous value
initialised to `u32::MAX` followed by a terminating zero; decoding the
first `count` deltas by wrapping addition from `u32::MAX` recovers the
sequence exactly; the first delta is `(first_file_id + 1) mod 2^32`; and
the documented example `[1,6,7,8]` encodes to `[2,5,1,1,0]`. -/
theorem claim_C3_delta_roundtrip (l : List Nat)
    (hmem : ∀ x ∈ l, x < 2^32) (hinc : l.Chain' (· < ·)) :
    deltaIter l = deltaLoop u32Max l ++ [0] ∧
    decodeDeltas u32Max ((deltaIter l).take l.length) = l ∧
    (∀ a rest, l = a :: rest →
      (deltaIter l).head? = some ((a + 1) % 2^32)) ∧
    deltaIter [1, 6, 7, 8] = [2, 5, 1, 1, 0] := by
  refine ⟨rfl, ?_, ?_, by decide⟩
  · have htake : (deltaIter l).take l.length = deltaLoop u32Max l := by
      rw [deltaIter, List.take_append_of_le_length (by rw [deltaLoop_length])]
      rw [← deltaLoop_length u32Max l, List.take_length]
    rw [htake]
    exact decode_deltaLoop l u32Max (by norm_num [u32Max]) hmem
  · intro a rest hl
    subst hl
    have ha : a < 2^32 := hmem a (by simp)
    simp only [deltaIter, deltaLoop, List.cons_append, List.head?_cons,
      Option.some.injEq, wsub32, u32Max]
    omega

/-- Witness for claim C3: the round-trip at the concrete sequence
`[1, 6, 7, 8]`. -/
theorem claim_C3_delta_roundtrip_witness :
    decodeDeltas u32Max ((deltaIter [1, 6, 7, 8]).take 4) = [1, 6, 7, 8] ∧
    (deltaIter [1, 6, 7, 8]).head? = some 2 := by
  have h := claim_C3_delta_roundtrip [1, 6, 7, 8] (by decide)
    (by simp [List.chain'_cons])
  exact ⟨h.2.1, h.2.2.1 1 [6, 7, 8] rfl⟩

/-! ## Trigram queries

Embedding of `src/src/libcsearch/src/regexp.rs`: the `Query` tree
(operation, `BTreeSet` of trigram byte strings, ordered subquery list),
`Query::implies` and `trigrams_imply`.  `BTreeSet<Vec<u8>>` values are
modelled as duplicate-free lists kept sorted in the lexicographic byte
order the Rust set iterates in.
-/

/-- Operation of a Query (`QueryOperation` in regexp.rs). -/
inductive QueryOperation where
  | All
  | None
  | And
  | Or
deriving DecidableEq, Repr

/-- A trigram literal: a byte string (`Trigram = Vec<u8>`). -/
abbrev Trig : Type := List Nat

/-- The query tree (`Query` in regexp.rs): an operation, a set of trigram
literals and a list of subqueries. -/
inductive Query where
  | mk (operation : QueryOperation) (trigram : List Trig) (sub : List Query)
deriving Repr

/-- Projection of the operation field. -/
def Query.operation : Query → QueryOperation
  | .mk op _ _ => op

/-- Projection of the trigram-set field. -/
def Query.trigram : Query → List Trig
  | .mk _ t _ => t

/-- Projection of the subquery list. -/
def Query.sub : Query → List Query
  | .mk _ _ s => s

/-- Membership test on a modelled `BTreeSet` (`contains`). -/
def containsB (xs : List Trig) (y : Trig) : Bool :=
  xs.any (fun x => x = y)

/-- Subset test on modelled `BTreeSet`s (`is_subset`). -/
def subsetB (s t : List Trig) : Bool :=
  s.all (fun x => containsB t x)

mutual

/-- The helper `trigrams_imply` of regexp.rs lines 610-632: do the
trigrams `t` structurally imply the query `rhs`?  An OR is implied when
some subquery is implied or some trigram of `t` is one of its trigrams; an
AND is implied when every subquery is implied and its trigram set is
contained in `t`; ALL and NONE yield false. -/
def trigramsImply (t : List Trig) : Query → Bool
  | .mk op tris sub =>
    match op with
    | .Or => anyImply t sub || t.any (fun s => containsB tris s)
    | .And => allImply t sub && subsetB tris t
    | _ => false

/-- Iteration of `trigrams_imply` over a subquery list with `any`. -/
def anyImply (t : List Trig) : List Query → Bool
  | [] => false
  | q :: qs => trigramsImply t q || anyImply t qs

/-- Iteration of `trigrams_imply` over a subquery list with `all`. -/
def allImply (t : List Trig) : List Query → Bool
  | [] => true
  | q :: qs => trigramsImply t q && allImply t qs

end

/-- The method `Query::implies` of regexp.rs lines 103-128: NONE implies
everything and everything implies ALL; ALL implies only ALL and only NONE
implies NONE; an AND (or a subquery-free single-trigram OR) delegates to
`trigrams_imply`; an OR with no subqueries implies an OR containing its
trigrams. -/
def impliesB (q r : Query) : Bool :=
  match q.operation, r.operation with
  | .None, _ => true
  | _, .All => true
  | .All, _ => false
  | _, .None => false
  | _, _ =>
    if q.operation = .And ∨
        (q.operation = .Or ∧ q.trigram.length = 1 ∧ q.sub.length = 0) then
      trigramsImply q.trigram r
    else if q.operation = .Or ∧ r.operation = .Or ∧
        q.trigram.length > 0 ∧ q.sub.length = 0 ∧ subsetB q.trigram r.trigram then
      true
    else
      false

/-- The invariant the Rust `Query` type maintains by construction: every
trigram field is a `BTreeSet`, hence duplicate-free (recursively). -/
def QueryWF : Query → Prop
  | .mk _ tris sub => tris.Nodup ∧ ∀ q ∈ sub, QueryWF q

theorem containsB_iff {xs : List Trig} {y : Trig} : containsB xs y = true ↔ y ∈ xs := by
  simp only [containsB, List.any_eq_true, decide_eq_true_eq]
  constructor
  · rintro ⟨x, hx, rfl⟩; exact hx
  · intro h; exact ⟨y, h, rfl⟩

theorem subsetB_iff {s t : List Trig} : subsetB s t = true ↔ ∀ x ∈ s, x ∈ t := by
  simp only [subsetB, List.all_eq_true]
  constructor
  · intro h x hx; exact containsB_iff.1 (h x hx)
  · intro h x hx; exact containsB_iff.2 (h x hx)

theorem anyImply_eq (t : List Trig) (l : List Query) :
    anyImply t l = l.any (fun q => trigramsImply t q) := by
  induction l with
  | nil => rfl
  | cons q qs ih => simp [anyImply, ih]

theorem allImply_eq (t : List Trig) (l : List Query) :
    allImply t l = l.all (fun q => trigramsImply t q) := by
  induction l with
  | nil => rfl
  | cons q qs ih => simp [allImply, ih]

theorem ti_mono_aux : ∀ n : Nat, ∀ t t2 : List Trig, (∀ x ∈ t, x ∈ t2) →
    ∀ r : Query, sizeOf r ≤ n → trigramsImply t r = true → trigramsImply t2 r = true := by
  intro n
  induction n with
  | zero =>
    intro t t2 _ r hr
    obtain ⟨op, tris, sub⟩ := r
    simp [Query.mk.sizeOf_spec] at hr
  | succ n ih =>
    intro t t2 h r hsize hti
    obtain ⟨op, tris, sub⟩ := r
    cases op with
    | Or =>
      simp only [trigramsImply, anyImply_eq, Bool.or_eq_true, List.any_eq_true,
        decide_eq_true_eq] at hti ⊢
      rcases hti with ⟨q, hq, hqt⟩ | ⟨x, hx, hcx⟩
      · refine Or.inl ⟨q, hq, ?_⟩
        have hlt : sizeOf q < sizeOf sub := List.sizeOf_lt_of_mem hq
        have hsub : sizeOf sub < sizeOf (Query.mk .Or tris sub) := by
          simp [Query.mk.sizeOf_spec]
        exact ih t t2 h q (by omega) hqt
      · exact Or.inr ⟨x, h x hx, hcx⟩
    | And =>
      simp only [trigramsImply, allImply_eq, Bool.and_eq_true, List.all_eq_true,
        subsetB_iff] at hti ⊢
      obtain ⟨hall, hss⟩ := hti
      refine ⟨fun q hq => ?_, fun x hx => h x (hss x hx)⟩
      have hlt : sizeOf q < sizeOf sub := List.sizeOf_lt_of_mem hq
      have hsub : sizeOf sub < sizeOf (Query.mk .And tris sub) := by
        simp [Query.mk.sizeOf_spec]
      exact ih t t2 h q (by omega) (hall q hq)
    | All => simp [trigramsImply] at hti
    | None => simp [trigramsImply] at hti

theorem ti_mono {t t2 : List Trig} (h : ∀ x ∈ t, x ∈ t2) {r : Query}
    (hti : trigramsImply t r = true) : trigramsImply t2 r = true :=
  ti_mono_aux (sizeOf r) t t2 h r (le_refl _) hti

theorem ti_op {t : List Trig} {r : Query} (hti : trigramsImply t r = true) :
    r.operation = .And ∨ r.operation = .Or := by
  obtain ⟨op, tris, sub⟩ := r
  cases op <;> simp_all [trigramsImply, Query.operation]

theorem impliesB_none_left (qt : List Trig) (qs : List Query) (r : Query) :
    impliesB (.mk .None qt qs) r = true := by
  obtain ⟨ro, rt, rs⟩ := r
  cases ro <;> rfl

theorem impliesB_all_right (q : Query) (st : List Trig) (ss : List Query) :
    impliesB q (.mk .All st ss) = true := by
  obtain ⟨qo, qt, qs⟩ := q
  cases qo <;> rfl

theorem impliesB_all_left {qt : List Trig} {qs : List Query} {r : Query}
    (h2 : r.operation ≠ .All) : impliesB (.mk .All qt qs) r = false := by
  obtain ⟨ro, rt, rs⟩ := r
  cases ro <;> simp_all [Query.operation] <;> rfl

theorem impliesB_none_right {q : Query} {st : List Trig} {ss : List Query}
    (hq : q.operation ≠ .None) : impliesB q (.mk .None st ss) = false := by
  obtain ⟨qo, qt, qs⟩ := q
  cases qo <;> simp_all [Query.operation] <;> rfl

theorem impliesB_body {qo so : QueryOperation} (hq : qo = .And ∨ qo = .Or)
    (hs : so = .And ∨ so = .Or) (qt st : List Trig) (qs ss : List Query) :
    impliesB (.mk qo qt qs) (.mk so st ss) =
      (if qo = .And ∨ (qo = .Or ∧ qt.length = 1 ∧ qs.length = 0)
       then trigramsImply qt (.mk so st ss)
       else if qo = .Or ∧ so = .Or ∧ qt.length > 0 ∧ qs.length = 0 ∧
           subsetB qt st
       then true else false) := by
  rcases hq with hq | hq <;> rcases hs with hs | hs <;> subst hq <;> subst hs <;>
    simp [impliesB, Query.operation, Query.trigram, Query.sub]

theorem ti_implies {qt : List Trig} {r s : Query}
    (hti : trigramsImply qt r = true) (him : impliesB r s = true)
    (hs : s.operation = QueryOperation.And ∨ s.operation = QueryOperation.Or) :
    trigramsImply qt s = true := by
  obtain ⟨ro, rt, rsub⟩ := r
  obtain ⟨so, st, ssub⟩ := s
  simp only [Query.operation] at hs
  have hro := ti_op hti
  simp only [Query.operation] at hro
  rw [impliesB_body hro hs] at him
  rcases hro with hro | hro
  · subst hro
    simp only [trigramsImply, Bool.and_eq_true, subsetB_iff] at hti
    obtain ⟨hall, hss⟩ := hti
    rw [if_pos (Or.inl rfl)] at him
    exact ti_mono hss him
  · subst hro
    simp only [trigramsImply, anyImply_eq, Bool.or_eq_true, List.any_eq_true,
      decide_eq_true_eq] at hti
    by_cases hc : rt.length = 1 ∧ rsub.length = 0
    · rw [if_pos (Or.inr ⟨rfl, hc⟩)] at him
      have hrsub : rsub = [] := List.length_eq_zero.1 hc.2
      subst hrsub
      rcases hti with ⟨q, hq, _⟩ | ⟨x, hx, hcx⟩
      · exact absurd hq (List.not_mem_nil q)
      · obtain ⟨x0, hx0⟩ := List.length_eq_one.1 hc.1
        subst hx0
        have hxeq : x = x0 := by
          have := containsB_iff.1 hcx
          simpa using this
        subst hxeq
        refine ti_mono (fun y hy => ?_) him
        simp at hy
        subst hy
        exact hx
    · rw [if_neg (by simp_all)] at him
      by_cases hc2 : QueryOperation.Or = QueryOperation.Or ∧ so = QueryOperation.Or ∧
          rt.length > 0 ∧ rsub.length = 0 ∧ subsetB rt st
      · obtain ⟨-, hso, -, hlen0, hss⟩ := hc2
        subst hso
        have hrsub : rsub = [] := List.length_eq_zero.1 hlen0
        subst hrsub
        rcases hti with ⟨q, hq, _⟩ | ⟨x, hx, hcx⟩
        · exact absurd hq (List.not_mem_nil q)
        · simp only [trigramsImply, anyImply_eq, Bool.or_eq_true, List.any_eq_true,
            decide_eq_true_eq]
          refine Or.inr ⟨x, hx, ?_⟩
          exact containsB_iff.2 (subsetB_iff.1 hss x (containsB_iff.1 hcx))
      · rw [if_neg hc2] at him
        exact absurd him (by simp)

theorem qt_singleton {qt : List Trig} {x0 : Trig} (hnd : qt.Nodup)
    (hpos : qt.length > 0) (hsub : ∀ x ∈ qt, x ∈ ([x0] : List Trig)) :
    qt = [x0] := by
  match qt, hpos with
  | a :: tl, _ =>
    have ha : a = x0 := by simpa using hsub a (by simp)
    subst ha
    have htl : tl = [] := by
      cases tl with
      | nil => rfl
      | cons b tl2 =>
        have hb : b = a := by simpa using hsub b (by simp)
        subst hb
        exact absurd (List.nodup_cons.1 hnd).1 (by simp)
    rw [htl]

theorem implies_trans_main {qo ro so : QueryOperation} {qt rt st : List Trig}
    {qs rs ss : List Query}
    (hqo : qo = .And ∨ qo = .Or) (hro : ro = .And ∨ ro = .Or)
    (hso : so = .And ∨ so = .Or)
    (hwf : QueryWF (.mk qo qt qs))
    (h1 : impliesB (.mk qo qt qs) (.mk ro rt rs) = true)
    (h2 : impliesB (.mk ro rt rs) (.mk so st ss) = true) :
    impliesB (.mk qo qt qs) (.mk so st ss) = true := by
  rw [impliesB_body hqo hro] at h1
  rw [impliesB_body hqo hso]
  by_cases hq1 : qo = .And ∨ (qo = .Or ∧ qt.length = 1 ∧ qs.length = 0)
  · rw [if_pos hq1] at h1
    rw [if_pos hq1]
    refine ti_implies h1 h2 ?_
    simpa [Query.operation] using hso
  · rw [if_neg hq1] at h1
    rw [if_neg hq1]
    by_cases hc2 : qo = .Or ∧ ro = .Or ∧ qt.length > 0 ∧ qs.length = 0 ∧
        subsetB qt rt
    · obtain ⟨hqOr, hroOr, hqtpos, hqs0, hsub⟩ := hc2
      subst hqOr
      subst hroOr
      rw [impliesB_body (Or.inr rfl) hso] at h2
      by_cases hr1 : QueryOperation.Or = QueryOperation.And ∨
          (QueryOperation.Or = QueryOperation.Or ∧ rt.length = 1 ∧ rs.length = 0)
      · rcases hr1 with hr1 | hr1
        · exact absurd hr1 (by simp)
        · obtain ⟨-, hrt1, -⟩ := hr1
          obtain ⟨x0, hx0⟩ := List.length_eq_one.1 hrt1
          subst hx0
          simp only [QueryWF] at hwf
          have hqt1 : qt = [x0] :=
            qt_singleton hwf.1 hqtpos (subsetB_iff.1 hsub)
          exact absurd (Or.inr ⟨rfl, by rw [hqt1]; rfl, hqs0⟩) hq1
      · rw [if_neg hr1] at h2
        by_cases hc3 : QueryOperation.Or = QueryOperation.Or ∧ so = QueryOperation.Or ∧
            rt.length > 0 ∧ rs.length = 0 ∧ subsetB rt st
        · obtain ⟨-, hsoOr, -, -, hsub2⟩ := hc3
          subst hsoOr
          rw [if_pos ⟨rfl, rfl, hqtpos, hqs0, subsetB_iff.2
            (fun x hx => subsetB_iff.1 hsub2 x (subsetB_iff.1 hsub x hx))⟩]
        · rw [if_neg hc3] at h2
          exact absurd h2 (by simp)
    · rw [if_neg hc2] at h1
      exact absurd h1 (by simp)

theorem implies_trans_body {qo ro so : QueryOperation} {qt rt st : List Trig}
    {qs rs ss : List Query}
    (hqo : qo = .And ∨ qo = .Or) (hso : so = .And ∨ so = .Or)
    (hwf : QueryWF (.mk qo qt qs))
    (h1 : impliesB (.mk qo qt qs) (.mk ro rt rs) = true)
    (h2 : impliesB (.mk ro rt rs) (.mk so st ss) = true) :
    impliesB (.mk qo qt qs) (.mk so st ss) = true := by
  have hqn : qo ≠ .None := by rcases hqo with h | h <;> subst h <;> simp
  have hsn : so ≠ .All := by rcases hso with h | h <;> subst h <;> simp
  cases ro with
  | None =>
    rw [impliesB_none_right (by simpa [Query.operation] using hqn)] at h1
    exact absurd h1 (by simp)
  | All =>
    rw [impliesB_all_left (by simpa [Query.operation] using hsn)] at h2
    exact absurd h2 (by simp)
  | And => exact implies_trans_main hqo (Or.inl rfl) hso hwf h1 h2
  | Or => exact implies_trans_main hqo (Or.inr rfl) hso hwf h1 h2

theorem implies_trans_core {qo ro so : QueryOperation} {qt rt st : List Trig}
    {qs rs ss : List Query}
    (hqo : qo = .And ∨ qo = .Or)
    (hwf : QueryWF (.mk qo qt qs))
    (h1 : impliesB (.mk qo qt qs) (.mk ro rt rs) = true)
    (h2 : impliesB (.mk ro rt rs) (.mk so st ss) = true) :
    impliesB (.mk qo qt qs) (.mk so st ss) = true := by
  have hqn : qo ≠ .None := by rcases hqo with h | h <;> subst h <;> simp
  cases so with
  | All => exact impliesB_all_right _ st ss
  | None =>
    cases ro with
    | None =>
      rw [impliesB_none_right (by simpa [Query.operation] using hqn)] at h1
      exact absurd h1 (by simp)
    | All =>
      rw [impliesB_none_right (by simp [Query.operation])] at h2
      exact absurd h2 (by simp)
    | And =>
      rw [impliesB_none_right (by simp [Query.operation])] at h2
      exact absurd h2 (by simp)
    | Or =>
      rw [impliesB_none_right (by simp [Query.operation])] at h2
      exact absurd h2 (by simp)
  | And =>
    have hso : (QueryOperation.And = QueryOperation.And ∨
        QueryOperation.And = QueryOperation.Or) := Or.inl rfl
    exact implies_trans_body hqo hso hwf h1 h2
  | Or =>
    have hso : (QueryOperation.Or = QueryOperation.And ∨
        QueryOperation.Or = QueryOperation.Or) := Or.inr rfl
    exact implies_trans_body hqo hso hwf h1 h2

/-- Claim C8, counterexample to reflexivity: the query value
`AND() [ OR(abc) ]` (an AND node with no trigrams and a single one-trigram
OR subquery) is a wellformed `Query` that does not imply itself, because
`trigrams_imply` with an empty trigram set refutes the OR subquery. -/
theorem claim_C8_not_reflexive :
    QueryWF (Query.mk .And [] [Query.mk .Or [[97, 98, 99]] []]) ∧
    impliesB (Query.mk .And [] [Query.mk .Or [[97, 98, 99]] []])
      (Query.mk .And [] [Query.mk .Or [[97, 98, 99]] []]) = false := by
  constructor
  · simp only [QueryWF]
    refine ⟨List.nodup_nil, ?_⟩
    intro q hq
    simp only [List.mem_singleton] at hq
    subst hq
    simp only [QueryWF]
    exact ⟨by simp, by simp⟩
  · rfl

/-- Claim C8, amended: on `Query` values (whose trigram fields are
duplicate-free, as the `BTreeSet` type guarantees), `implies` is
transitive, NONE implies every query, and every query implies ALL.
Reflexivity, as stated, fails (see the counterexample). -/
theorem claim_C8_implies_lattice :
    (∀ q r s : Query, QueryWF q → impliesB q r = true → impliesB r s = true →
      impliesB q s = true) ∧
    (∀ q r : Query, q.operation = .None → impliesB q r = true) ∧
    (∀ q s : Query, s.operation = .All → impliesB q s = true) := by
  refine ⟨?_, ?_, ?_⟩
  · intro q r s hwf h1 h2
    obtain ⟨qo, qt, qs⟩ := q
    obtain ⟨ro, rt, rs⟩ := r
    obtain ⟨so, st, ss⟩ := s
    cases qo with
    | None => exact impliesB_none_left qt qs _
    | All =>
      cases ro with
      | All =>
        cases so with
        | All => exact impliesB_all_right _ st ss
        | None => exact absurd h2 (by rw [impliesB_none_right (by simp [Query.operation])]; simp)
        | And => exact absurd h2 (by rw [impliesB_all_left (by simp [Query.operation])]; simp)
        | Or => exact absurd h2 (by rw [impliesB_all_left (by simp [Query.operation])]; simp)
      | None => exact absurd h1 (by rw [impliesB_none_right (by simp [Query.operation])]; simp)
      | And => exact absurd h1 (by rw [impliesB_all_left (by simp [Query.operation])]; simp)
      | Or => exact absurd h1 (by rw [impliesB_all_left (by simp [Query.operation])]; simp)
    | And => exact implies_trans_core (Or.inl rfl) hwf h1 h2
    | Or => exact implies_trans_core (Or.inr rfl) hwf h1 h2
  · intro q r hq
    obtain ⟨qo, qt, qs⟩ := q
    simp only [Query.operation] at hq
    subst hq
    exact impliesB_none_left qt qs r
  · intro q s hs
    obtain ⟨so, st, ss⟩ := s
    simp only [Query.operation] at hs
    subst hs
    exact impliesB_all_right q st ss

/-- Witness for claim C8: transitivity, bottom and top applied at concrete
queries. -/
theorem claim_C8_implies_lattice_witness :
    impliesB (Query.mk .And [[97, 98, 99], [98, 99, 100]] [])
      (Query.mk .Or [[97, 98, 99], [99, 100, 101]] []) = true ∧
    impliesB (Query.mk .None [] []) (Query.mk .And [[97, 97, 97]] []) = true ∧
    impliesB (Query.mk .Or [[97, 97, 97]] []) (Query.mk .All [] []) = true := by
  refine ⟨?_, ?_, ?_⟩
  · exact claim_C8_implies_lattice.1
      (Query.mk .And [[97, 98, 99], [98, 99, 100]] [])
      (Query.mk .And [[97, 98, 99]] [])
      (Query.mk .Or [[97, 98, 99], [99, 100, 101]] [])
      (by simp only [QueryWF]
          exact ⟨by decide, fun q hq => absurd hq (List.not_mem_nil q)⟩)
      (by rfl) (by rfl)
  · exact claim_C8_implies_lattice.2.1 (Query.mk .None [] []) _ rfl
  · exact claim_C8_implies_lattice.2.2 _ (Query.mk .All [] []) rfl

/-! ## Trigram stream

Embedding of `TrigramIter` from `src/src/index/writer/trigramiter.rs`
lines 130-184 (the same iterator, with the error returned through the
item type, is `TrigramIter` in `src/src/index/write.rs` lines 392-443).
-/

/-- The byte-pair UTF-8 gate `valid_utf8` (trigramiter.rs lines 186-199). -/
def validUtf8 (c1 c2 : Nat) : Bool :=
  if c1 < 0x80 then (c2 < 0x80) || ((0xc0 ≤ c2) && (c2 < 0xf8))
  else if c1 < 0xc0 then c2 < 0xf8
  else if c1 < 0xf8 then (0x80 ≤ c2) && (c2 < 0xc0)
  else false

/-- The three error kinds the trigram stream can stop with. -/
inductive TrigErr where
  | binaryData
  | highInvalidUtf8
  | lineTooLong
deriving DecidableEq, Repr

/-- The drained trigram stream: iterate `TrigramIter::next` to exhaustion,
collecting the emitted trigrams and the error, if any, that stopped the
stream.  The state arguments are the iterator fields `current_value`,
`num_read`, `inv_cnt` and `line_len`; `maxInvalid` and `maxLineLen` are
the gate limits.  A source of fewer than three bytes emits its short
`current_value` once at end of input. -/
def drainTrigrams (maxInvalid maxLineLen : Nat) :
    List Nat → Nat → Nat → Nat → Nat → (List Nat × Option TrigErr)
  | [], cur, numRead, _, _ =>
    if 0 < numRead ∧ numRead < 3 then ([cur], none) else ([], none)
  | c :: rest, cur, numRead, invCnt, lineLen =>
    let cur2 := ((1 <<< 24) - 1) &&& ((cur <<< 8) ||| c)
    let numRead2 := numRead + 1
    if numRead2 < 3 then
      drainTrigrams maxInvalid maxLineLen rest cur2 numRead2 invCnt lineLen
    else
      let b1 := (cur2 >>> 8) &&& 0xff
      let b2 := cur2 &&& 0xff
      if b1 = 0 ∨ b2 = 0 then ([], some .binaryData)
      else if ¬ validUtf8 b1 b2 then
        if invCnt + 1 > maxInvalid then ([], some .highInvalidUtf8)
        else drainTrigrams maxInvalid maxLineLen rest cur2 numRead2 (invCnt + 1) lineLen
      else if lineLen > maxLineLen then ([], some .lineTooLong)
      else
        let lineLen2 := if c = 10 then 0 else lineLen + 1
        let res := drainTrigrams maxInvalid maxLineLen rest cur2 numRead2 invCnt lineLen2
        (cur2 :: res.1, res.2)

/-! ## Sparse trigram set and posting entries -/

/-- The observable behaviour of `SparseSet::insert`
(`src/src/cindex/src/writer/sparseset.rs`): if the element is present do
nothing, otherwise append it to the dense array, so the dense array lists
the distinct trigrams in first-insertion order. -/
def sparseInsert (dense : List Nat) (x : Nat) : List Nat :=
  if dense.contains x then dense else dense ++ [x]

/-- Dense contents of a `SparseSet` after clearing it and inserting every
element of `ts` in order (the per-file loop of `IndexWriter::add`). -/
def denseOf (ts : List Nat) : List Nat :=
  ts.foldl sparseInsert []

/-- A packed posting entry `PostEntry::new`
(`src/src/index/writer/postentry.rs`): the trigram in the high 32 bits of
a u64, the file id in the low 32 bits. -/
def mkPostEntry (trigram fileId : Nat) : Nat :=
  (trigram <<< 32) ||| fileId

/-- The trigram field of a packed posting entry (`PostEntry::trigram`). -/
def trigramOf (e : Nat) : Nat := e >>> 32

/-- The file-id field of a packed posting entry (`PostEntry::file_id`). -/
def fileIdOf (e : Nat) : Nat := e &&& 0xffffffff

/-- Writer limit `MAX_FILE_LEN`. -/
def MAX_FILE_LEN : Nat := 1 <<< 30

/-- Writer limit `MAX_LINE_LEN`. -/
def MAX_LINE_LEN : Nat := 2000

/-- Writer limit `MAX_TEXT_TRIGRAMS`. -/
def MAX_TEXT_TRIGRAMS : Nat := 30000

/-- Writer spill threshold `NPOST = (64 << 20) / 8` posting entries. -/
def NPOST : Nat := (64 <<< 20) / 8

/-- The skip-class error kinds `IndexWriter::add` can return. -/
inductive AddErr where
  | fileTooLong
  | binaryData
  | highInvalidUtf8
  | lineTooLong
  | tooManyTrigrams
deriving DecidableEq, Repr

/-- Lift of a trigram-stream error into the error kind of `add`. -/
def liftTrigErr : TrigErr → AddErr
  | .binaryData => .binaryData
  | .highInvalidUtf8 => .highInvalidUtf8
  | .lineTooLong => .lineTooLong

/-- Mutable state of an `IndexWriter`: name-data and name-index temp
streams, the name counter, the byte counter, the in-memory posting
buffer and the spilled run files (`post_files`, each holding the sorted
entries `flush_post` wrote to it). -/
structure WState where
  nameData : List Nat
  nameIndex : List Nat
  numberOfNamesWritten : Nat
  bytesWritten : Nat
  post : List Nat
  post_files : List (List Nat)
deriving DecidableEq, Repr

/-- Fresh writer state (`IndexWriter::new`). -/
def initState : WState := ⟨[], [], 0, 0, [], []⟩

/-- The sort `self.post.sort()` performed by `flush_post` and
`merge_post`. -/
def sortPost (post : List Nat) : List Nat :=
  post.mergeSort (fun a b => a ≤ b)

/-- One iteration of the posting-push loop of `add`
(`if self.post.len() >= NPOST { self.flush_post() } self.post.push(e)`):
when the buffer holds at least `NPOST` entries, `flush_post` sorts it,
writes it to a new temp file appended to `post_files` and clears it;
then the entry is pushed.  The accumulator is the pair
`(post_files, post)`. -/
def pushEntry (acc : List (List Nat) × List Nat) (e : Nat) :
    List (List Nat) × List Nat :=
  if NPOST ≤ acc.2.length then (acc.1 ++ [sortPost acc.2], [e])
  else (acc.1, acc.2 ++ [e])

/-- The method `IndexWriter::add_name`: record the current name-data
offset in the name index, append the name bytes and a NUL to name data,
and hand out the next file id. -/
def add_name (s : WState) (name : List Nat) : WState × Nat :=
  ({ s with
      nameIndex := s.nameIndex ++ [s.nameData.length],
      nameData := s.nameData ++ name ++ [0],
      numberOfNamesWritten := s.numberOfNamesWritten + 1 },
   s.numberOfNamesWritten)

/-- The method `IndexWriter::add`: reject over-long files; drain the
trigram stream (a stream error is returned and nothing else happens);
reject files with more than `MAX_TEXT_TRIGRAMS` distinct trigrams;
otherwise count the bytes, allocate a file id with `add_name` and push
one posting entry per distinct trigram through the `NPOST`-checked loop.
The result carries the updated state, the allocated file id and the
error, mirroring `&mut self` plus `IndexResult`.  `size / 10` models
`(size as f64 * 0.1) as u64`. -/
def addModel (s : WState) (name content : List Nat) :
    WState × Option Nat × Option AddErr :=
  let size := content.length
  if size > MAX_FILE_LEN then (s, none, some .fileTooLong)
  else
    let res := drainTrigrams (size / 10) MAX_LINE_LEN content 0 0 0 0
    match res.2 with
    | some e => (s, none, some (liftTrigErr e))
    | none =>
      let dense := denseOf res.1
      if dense.length > MAX_TEXT_TRIGRAMS then (s, none, some .tooManyTrigrams)
      else
        let s1 := { s with bytesWritten := s.bytesWritten + size }
        let s2f := add_name s1 name
        let pp := (dense.map (fun t => mkPostEntry t s2f.2)).foldl pushEntry
          (s2f.1.post_files, s2f.1.post)
        ({ s2f.1 with post_files := pp.1, post := pp.2 }, some s2f.2, none)

/-- Folding `add` over a list of (name, content) files starting from a
given state. -/
def processFrom (s : WState) (files : List (List Nat × List Nat)) : WState :=
  files.foldl (fun st f => (addModel st f.1 f.2).1) s

/-- Folding `add` over a list of files starting from a fresh writer. -/
def processFiles (files : List (List Nat × List Nat)) : WState :=
  processFrom initState files

/-- The grouping loop of `IndexWriter::merge_post` (write.rs lines
250-278) applied to the merged posting-entry stream: each run of
consecutive equal trigrams becomes one posting list; the stream is capped
by a sentinel `0xFFFFFF` entry with an empty list, at which the loop
breaks. -/
def mergePostModel : List Nat → List (Nat × List Nat)
  | [] => [((1 <<< 24) - 1, [])]
  | e :: rest =>
    if trigramOf e = (1 <<< 24) - 1 then [((1 <<< 24) - 1, [])]
    else
      (trigramOf e,
        fileIdOf e :: (rest.takeWhile (fun p => trigramOf p = trigramOf e)).map fileIdOf) ::
      mergePostModel (rest.dropWhile (fun p => trigramOf p = trigramOf e))
termination_by stream => stream.length
decreasing_by
  simp only [List.length_cons]
  exact Nat.lt_succ_of_le (List.dropWhile_sublist _).length_le

/-- The minimum scan of write.rs's `PostHeap` iterator (`for (each_idx,
each_vec) in ch { ... if *each_val < min_val { ... } }`): walk the chunks
from index `idx`, skipping exhausted ones, tracking the index of the
strictly smallest head; `min_val` starts at `u64::MAX`. -/
def scanMin : List (List Nat) → Nat → Nat → Nat → Nat
  | [], _, mi, _ => mi
  | c :: rest, idx, mi, mv =>
    match c with
    | [] => scanMin rest (idx + 1) mi mv
    | e :: _ =>
      if e < mv then scanMin rest (idx + 1) idx e
      else scanMin rest (idx + 1) mi mv

/-- One step of `PostHeapIntoIter::next` (write.rs lines 512-541): with
no chunks, iteration ends; with one chunk, pop it, otherwise pop the
chunk with the smallest head; the chunk is removed once emptied.  The
unreachable `next().unwrap()` panic on popping an exhausted chunk (only
possible when `add_mem` received an empty buffer, an index with no
postings) is modelled as the end of iteration. -/
def heapPop (ch : List (List Nat)) : Option (Nat × List (List Nat)) :=
  if ch.isEmpty then none
  else
    let mi := if ch.length = 1 then 0 else scanMin ch 0 0 (2 ^ 64 - 1)
    match ch.getD mi [] with
    | [] => none
    | e :: rest =>
      some (e,
        if rest.isEmpty then (ch.set mi rest).eraseIdx mi else ch.set mi rest)

/-- Draining the `PostHeap` iterator; the fuel only bounds the number of
emitted entries, so any fuel above the total entry count is exact. -/
def heapDrainF : Nat → List (List Nat) → List Nat
  | 0, _ => []
  | f + 1, ch =>
    match heapPop ch with
    | none => []
    | some (e, ch2) => e :: heapDrainF f ch2

/-- The full merged entry stream of a `PostHeap` holding `chunks`. -/
def heapMerge (chunks : List (List Nat)) : List Nat :=
  heapDrainF ((chunks.map List.length).sum + 1) chunks

/-- Posting lists of the flushed index (`merge_post` via `flush`): the
heap is loaded with one chunk per spilled run file (`add_file`, in spill
order) and then the sorted in-memory buffer (`add_mem`), and its merged
stream is grouped into posting lists. -/
def flushPostingLists (s : WState) : List (Nat × List Nat) :=
  mergePostModel (heapMerge (s.post_files ++ [sortPost s.post]))

/-- Name streams of the flushed index: `flush` first appends the empty
sentinel name with `add_name`. -/
def flushNames (s : WState) : WState :=
  (add_name s []).1

/-- Lookup of the posting list recorded for a trigram, empty when the
trigram has no entry. -/
def listLookup (pl : List (Nat × List Nat)) (t : Nat) : List Nat :=
  match pl.find? (fun p => p.1 = t) with
  | some p => p.2
  | none => []

/-! ## Reader-side name extraction

`IndexReader::name` and `IndexReader::extract_string_at` from
`src/src/libcsearch/src/reader/read.rs` lines 276-313: read the big-endian
offset for the file id from the name index, then push bytes one at a time
as `char`s until a NUL.  A byte pushed `as char` becomes the codepoint
equal to the byte value, so the result is modelled as the list of those
codepoints. -/

/-- The method `extract_string_at`: the bytes from `offset` up to the
first NUL, each decoded as one `char`. -/
def extract_string_at (data : List Nat) (offset : Nat) : List Nat :=
  (data.drop offset).takeWhile (fun b => b ≠ 0)

/-- The method `IndexReader::name`: offset lookup in the name index, then
`extract_string_at` relative to the name-data section. -/
def readerName (s : WState) (fileId : Nat) : List Nat :=
  extract_string_at s.nameData (s.nameIndex.getD fileId 0)

/-! ### Claim C9: skip-class errors leave the writer unchanged -/

/-- Whether `add` accepts a file; all three gates depend only on the
content, never on the writer state. -/
def addOk (content : List Nat) : Bool :=
  if content.length > MAX_FILE_LEN then false
  else
    match (drainTrigrams (content.length / 10) MAX_LINE_LEN content 0 0 0 0).2 with
    | some _ => false
    | none =>
      decide (¬ (denseOf
        (drainTrigrams (content.length / 10) MAX_LINE_LEN content 0 0 0 0).1).length
          > MAX_TEXT_TRIGRAMS)

theorem addModel_err (s : WState) (name : List Nat) {content : List Nat}
    (h : addOk content = false) :
    (addModel s name content).1 = s ∧ (addModel s name content).2.1 = none := by
  by_cases h1 : content.length > MAX_FILE_LEN
  · simp [addModel, h1]
  · rcases hdrain : (drainTrigrams (content.length / 10) MAX_LINE_LEN content 0 0 0 0).2
      with - | e2
    · by_cases h2 : (denseOf
          (drainTrigrams (content.length / 10) MAX_LINE_LEN content 0 0 0 0).1).length
            > MAX_TEXT_TRIGRAMS
      · simp [addModel, h1, hdrain, h2]
      · exact absurd h (by simp [addOk, h1, hdrain, h2])
    · simp [addModel, h1, hdrain]

theorem addModel_some_err {s : WState} {name content : List Nat} {e : AddErr}
    (h : (addModel s name content).2.2 = some e) : addOk content = false := by
  by_cases h1 : content.length > MAX_FILE_LEN
  · simp [addOk, h1]
  · rcases hdrain : (drainTrigrams (content.length / 10) MAX_LINE_LEN content 0 0 0 0).2
      with - | e2
    · by_cases h2 : (denseOf
          (drainTrigrams (content.length / 10) MAX_LINE_LEN content 0 0 0 0).1).length
            > MAX_TEXT_TRIGRAMS
      · simp [addOk, h1, hdrain, h2]
      · exact absurd h (by simp [addModel, h1, hdrain, h2])
    · simp [addOk, h1, hdrain]

/-- Claim C9: when `IndexWriter::add` returns a skip-class error (the only
error kinds the model can return: FileTooLong, BinaryDataPresent,
HighInvalidUtf8Ratio, LineTooLong, TooManyTrigrams), no file id is
allocated, the name-data and name-index streams and the posting buffer
are untouched, and any later sequence of adds (hence the flushed index)
is the same as if the call had never happened. -/
theorem claim_C9_skip_errors (s : WState) (name content : List Nat) (e : AddErr)
    (h : (addModel s name content).2.2 = some e) :
    (addModel s name content).1 = s ∧
    (addModel s name content).2.1 = none ∧
    ∀ rest : List (List Nat × List Nat),
      processFrom (addModel s name content).1 rest = processFrom s rest := by
  obtain ⟨h1, h2⟩ := addModel_err s name (addModel_some_err h)
  exact ⟨h1, h2, fun rest => by rw [h1]⟩

/-- Witness for claim C9: a one-byte NUL file is rejected as binary data
and leaves a concrete nonempty writer state unchanged. -/
theorem claim_C9_skip_errors_witness :
    (addModel ⟨[97, 0], [0], 1, 1, [mkPostEntry 3 0], []⟩ [98] [0, 0, 0]).2.2 =
      some AddErr.binaryData ∧
    (addModel ⟨[97, 0], [0], 1, 1, [mkPostEntry 3 0], []⟩ [98] [0, 0, 0]).1 =
      ⟨[97, 0], [0], 1, 1, [mkPostEntry 3 0], []⟩ := by
  refine ⟨by decide, ?_⟩
  exact (claim_C9_skip_errors _ [98] [0, 0, 0] AddErr.binaryData (by decide)).1

/-! ### Claim C10: name round-trip through the reader -/

/-- Names of the files a sequence of adds accepts, in file-id order. -/
def addedNames (files : List (List Nat × List Nat)) : List (List Nat) :=
  (files.filter (fun f => addOk f.2)).map (·.1)

/-- Concatenated name-data stream for a name list: each name followed by
a NUL. -/
def catNames : List (List Nat) → List Nat
  | [] => []
  | n :: rest => n ++ 0 :: catNames rest

/-- Name-index stream for a name list: the byte offset of each name in
the name-data stream, starting from `base`. -/
def offsetsFrom (base : Nat) : List (List Nat) → List Nat
  | [] => []
  | n :: rest => base :: offsetsFrom (base + n.length + 1) rest

theorem addModel_ok (s : WState) (name : List Nat) {content : List Nat}
    (h : addOk content = true) :
    (addModel s name content).1 =
      { s with
          nameIndex := s.nameIndex ++ [s.nameData.length],
          nameData := s.nameData ++ name ++ [0],
          numberOfNamesWritten := s.numberOfNamesWritten + 1,
          bytesWritten := s.bytesWritten + content.length,
          post_files := (((denseOf
            (drainTrigrams (content.length / 10) MAX_LINE_LEN content 0 0 0 0).1).map
              (fun t => mkPostEntry t s.numberOfNamesWritten)).foldl pushEntry
                (s.post_files, s.post)).1,
          post := (((denseOf
            (drainTrigrams (content.length / 10) MAX_LINE_LEN content 0 0 0 0).1).map
              (fun t => mkPostEntry t s.numberOfNamesWritten)).foldl pushEntry
                (s.post_files, s.post)).2 } ∧
    (addModel s name content).2.1 = some s.numberOfNamesWritten ∧
    (addModel s name content).2.2 = none := by
  by_cases h1 : content.length > MAX_FILE_LEN
  · exact absurd h (by simp [addOk, h1])
  · rcases hdrain : (drainTrigrams (content.length / 10) MAX_LINE_LEN content 0 0 0 0).2
      with - | e2
    · by_cases h2 : (denseOf
          (drainTrigrams (content.length / 10) MAX_LINE_LEN content 0 0 0 0).1).length
            > MAX_TEXT_TRIGRAMS
      · exact absurd h (by simp [addOk, h1, hdrain, h2])
      · refine ⟨?_, ?_, ?_⟩ <;> simp [addModel, h1, hdrain, h2, add_name]
    · exact absurd h (by simp [addOk, h1, hdrain])

theorem processFrom_layout (files : List (List Nat × List Nat)) :
    ∀ s : WState,
      (processFrom s files).nameData = s.nameData ++ catNames (addedNames files) ∧
      (processFrom s files).nameIndex =
        s.nameIndex ++ offsetsFrom s.nameData.length (addedNames files) ∧
      (processFrom s files).numberOfNamesWritten =
        s.numberOfNamesWritten + (addedNames files).length := by
  induction files with
  | nil => intro s; simp [processFrom, addedNames, catNames, offsetsFrom]
  | cons f rest ih =>
    intro s
    rcases hok : addOk f.2 with - | -
    · have herr := addModel_err s f.1 hok
      have hstep : processFrom s (f :: rest) = processFrom (addModel s f.1 f.2).1 rest := by
        simp [processFrom, List.foldl_cons]
      rw [hstep, herr.1]
      have hnames : addedNames (f :: rest) = addedNames rest := by
        simp [addedNames, List.filter_cons, hok]
      rw [hnames]
      exact ih s
    · have hokk := addModel_ok s f.1 hok
      have hstep : processFrom s (f :: rest) = processFrom (addModel s f.1 f.2).1 rest := by
        simp [processFrom, List.foldl_cons]
      rw [hstep, hokk.1]
      have hnames : addedNames (f :: rest) = f.1 :: addedNames rest := by
        simp [addedNames, List.filter_cons, hok]
      rw [hnames]
      obtain ⟨ha, hb, hc⟩ := ih
        { s with
            nameIndex := s.nameIndex ++ [s.nameData.length],
            nameData := s.nameData ++ f.1 ++ [0],
            numberOfNamesWritten := s.numberOfNamesWritten + 1,
            bytesWritten := s.bytesWritten + f.2.length,
            post_files := (((denseOf
              (drainTrigrams (f.2.length / 10) MAX_LINE_LEN f.2 0 0 0 0).1).map
                (fun t => mkPostEntry t s.numberOfNamesWritten)).foldl pushEntry
                  (s.post_files, s.post)).1,
            post := (((denseOf
              (drainTrigrams (f.2.length / 10) MAX_LINE_LEN f.2 0 0 0 0).1).map
                (fun t => mkPostEntry t s.numberOfNamesWritten)).foldl pushEntry
                  (s.post_files, s.post)).2 }
      refine ⟨?_, ?_, ?_⟩
      · rw [ha]
        simp [catNames]
      · rw [hb]
        simp only [offsetsFrom, List.append_assoc, List.length_append,
          List.length_cons, List.length_nil, List.cons_append, List.nil_append]
        rw [show s.nameData.length + (f.1.length + 1) =
          s.nameData.length + f.1.length + 1 from by omega]
      · rw [hc]
        simp [Nat.add_comm, Nat.add_assoc]
        omega

theorem extract_layout (names : List (List Nat)) :
    ∀ (i : Nat) (pre tail : List Nat), (∀ n ∈ names, 0 ∉ n) → i < names.length →
      extract_string_at (pre ++ catNames names ++ tail)
        ((offsetsFrom pre.length names).getD i 0) = names.getD i [] := by
  induction names with
  | nil => intro i pre tail _ hi; simp at hi
  | cons n rest ih =>
    intro i pre tail h0 hi
    cases i with
    | zero =>
      simp only [offsetsFrom, List.getD_cons_zero, List.getD_cons_zero,
        extract_string_at, catNames]
      have hdrop : (pre ++ (n ++ 0 :: catNames rest) ++ tail).drop pre.length =
          n ++ 0 :: (catNames rest ++ tail) := by
        rw [List.append_assoc, List.drop_append_of_le_length (le_refl _)]
        simp
      rw [hdrop]
      rw [List.takeWhile_append_of_pos]
      · simp
      · intro b hb
        simp only [ne_eq, decide_eq_true_eq, decide_not]
        have : b ≠ 0 := by
          intro hb0
          subst hb0
          exact h0 n (by simp) hb
        simp [this]
    | succ i =>
      simp only [offsetsFrom, List.getD_cons_succ, catNames]
      have hre : pre ++ (n ++ 0 :: catNames rest) ++ tail =
          (pre ++ n ++ [0]) ++ catNames rest ++ tail := by
        simp
      rw [hre]
      have hlen : pre.length + n.length + 1 = (pre ++ n ++ [0]).length := by
        simp only [List.length_append, List.length_cons, List.length_nil]
      rw [hlen]
      exact ih i (pre ++ n ++ [0]) tail (fun m hm => h0 m (by simp [hm]))
        (by simpa using hi)

/-- Claim C10, counterexample as stated: the single-byte name
`"\x00"` consists only of ASCII bytes and is successfully added (the
direct `add` entry point used by the test harness accepts any name), but
the reader reconstructs the empty name for file id 0, because
`extract_string_at` stops at the first NUL. -/
theorem claim_C10_nul_name :
    (addModel initState [0] []).2.2 = none ∧
    (addModel initState [0] []).2.1 = some 0 ∧
    readerName (flushNames (processFiles [([0], [])])) 0 = [] := by
  refine ⟨by decide, by decide, by decide⟩

/-- Claim C10, amended: for adds whose names consist of non-NUL ASCII
bytes, the reader name for file id `i` is byte for byte the name passed
to the i-th successful add (each byte decoded as the `char` with the same
code). -/
theorem claim_C10_name_roundtrip (files : List (List Nat × List Nat))
    (hns : ∀ f ∈ files, ∀ b ∈ f.1, 0 < b ∧ b < 128)
    (i : Nat) (hi : i < (addedNames files).length) :
    readerName (flushNames (processFiles files)) i = (addedNames files).getD i [] := by
  obtain ⟨ha, hb, hc⟩ := processFrom_layout files initState
  have h0 : ∀ n ∈ addedNames files, 0 ∉ n := by
    intro n hn hb0
    simp only [addedNames, List.mem_map] at hn
    obtain ⟨f, hf, hfn⟩ := hn
    have := hns f (List.mem_of_mem_filter hf) 0 (by rw [hfn]; exact hb0)
    omega
  have hflush : (flushNames (processFiles files)).nameData =
      catNames (addedNames files) ++ ([] ++ [0]) ∧
      (flushNames (processFiles files)).nameIndex =
        offsetsFrom 0 (addedNames files) ++ [(catNames (addedNames files)).length] := by
    constructor
    · simp only [flushNames, add_name, processFiles]
      rw [ha]
      simp [initState]
    · simp only [flushNames, add_name, processFiles]
      rw [hb, ha]
      simp [initState]
  have hidx : (flushNames (processFiles files)).nameIndex.getD i 0 =
      (offsetsFrom 0 (addedNames files)).getD i 0 := by
    rw [hflush.2]
    rw [List.getD_append]
    have : (offsetsFrom 0 (addedNames files)).length = (addedNames files).length := by
      clear hi
      generalize 0 = base
      induction (addedNames files) generalizing base with
      | nil => rfl
      | cons n rest ih => simp [offsetsFrom, ih]
    omega
  rw [readerName, hidx, hflush.1]
  have := extract_layout (addedNames files) i [] ([] ++ [0]) h0 hi
  simpa using this

/-- Witness for claim C10: one concrete ASCII add round-trips. -/
theorem claim_C10_name_roundtrip_witness :
    readerName (flushNames (processFiles [([97, 98], [104, 105, 106])])) 0 = [97, 98] := by
  have := claim_C10_name_roundtrip [([97, 98], [104, 105, 106])]
    (by decide) 0 (by decide)
  simpa using this

/-! ### Claim C1: every window of an indexed file reaches its posting list -/

theorem sortPost_pairwise (post : List Nat) :
    List.Pairwise (· ≤ ·) (sortPost post) := by
  have h := List.sorted_mergeSort
    (fun a b c (h1 : (decide (a ≤ b)) = true) (h2 : (decide (b ≤ c)) = true) => by
      simp only [decide_eq_true_eq] at *
      omega)
    (fun a b => by
      simp only [Bool.or_eq_true, decide_eq_true_eq]
      omega)
    post
  exact h.imp (fun hab => by simpa using hab)

/-- One counting-sort pass of `sort_post`: count the 12-bit keys, turn the
counts into running offsets, then place each entry at its offset in a
scratch array, preserving input order within a key. -/
def radixPass (key : Nat → Nat) (post : List Nat) : List Nat :=
  let counts := post.foldl
    (fun (a : Array Nat) p => a.set! (key p) (a.get! (key p) + 1))
    (Array.mkArray 4096 0)
  let offsets := ((List.range 4096).foldl
    (fun (st : Array Nat × Nat) r => (st.1.set! r st.2, st.2 + counts.get! r))
    (counts, 0)).1
  (post.foldl
    (fun (st : Array Nat × Array Nat) p =>
      (st.1.set! (key p) (st.1.get! (key p) + 1),
       st.2.set! (st.1.get! (key p)) p))
    (offsets, Array.mkArray post.length 0)).2.toList

/-- The two-round 12-bit radix sort `sort_post` (sort_post.rs lines 22-63):
first on the low 12 bits of the trigram, then on bits 44-55 of the packed
value. -/
def sort_post (post : List Nat) : List Nat :=
  radixPass (fun p => (p >>> (32 + 12)) &&& ((1 <<< 12) - 1))
    (radixPass (fun p => trigramOf p &&& ((1 <<< 12) - 1)) post)

/-- A `PostChunk`: the current entry `e`, the remaining iterator `m` and
the number of entries still to deliver. -/
structure PostChunk where
  e : Nat
  m : List Nat
  size : Nat
deriving DecidableEq, Repr

instance : Inhabited PostChunk := ⟨⟨0, [], 0⟩⟩

/-- The constructor `PostChunk::new`: none for an empty run, otherwise the
head becomes `e` and the tail the iterator. -/
def PostChunk.new (v : List Nat) : Option PostChunk :=
  match v with
  | [] => none
  | e :: m => some ⟨e, m, v.length⟩

/-- The iterator step of `PostChunk`: deliver `e`, pull the next entry
into `e` if any, decrement `size`. -/
def chunkNext (c : PostChunk) : Option (Nat × PostChunk) :=
  if c.size = 0 then none
  else some (c.e, ⟨c.m.headD c.e, c.m.tail, c.size - 1⟩)

/-- The loop of `PostHeap::sift_up`; the fuel only bounds the iteration
count (the slot index strictly decreases, so `j` iterations always
suffice). -/
def siftUpF : Nat → List PostChunk → Nat → List PostChunk
  | 0, ch, _ => ch
  | fuel + 1, ch, j =>
    if j > 0 then
      let i := (j - 1) / 2
      if i = j ∨ (ch.getD i default).e < (ch.getD j default).e then ch
      else siftUpF fuel ((ch.set i (ch.getD j default)).set j (ch.getD i default)) i
    else ch

/-- The method `PostHeap::sift_up`, started with enough fuel. -/
def siftUp (ch : List PostChunk) (j : Nat) : List PostChunk :=
  siftUpF j ch j

/-- The loop of `PostHeap::sift_down`; the slot index strictly increases
toward the end of the array, so `ch.length` iterations always suffice. -/
def siftDownF : Nat → List PostChunk → Nat → List PostChunk
  | 0, ch, _ => ch
  | fuel + 1, ch, i =>
    if 2 * i + 1 ≥ ch.length then ch
    else
      let j1 := 2 * i + 1
      let j2 := j1 + 1
      let j := if j2 < ch.length ∧ (ch.getD j1 default).e ≥ (ch.getD j2 default).e
        then j2 else j1
      if (ch.getD i default).e < (ch.getD j default).e then ch
      else siftDownF fuel ((ch.set i (ch.getD j default)).set j (ch.getD i default)) j

/-- The method `PostHeap::sift_down`, started with enough fuel. -/
def siftDown (ch : List PostChunk) (i : Nat) : List PostChunk :=
  siftDownF ch.length ch i

/-- The method `PostHeap::push`: append, then sift up from the new slot
when the heap has at least two chunks. -/
def heapPush (ch : List PostChunk) (c : PostChunk) : List PostChunk :=
  let ch2 := ch ++ [c]
  if ch2.length ≥ 2 then siftUp ch2 ch.length else ch2

/-- The method `PostHeap::add_mem` (through `add`): build a chunk from the
run and push it unless empty. -/
def addMem (ch : List PostChunk) (v : List Nat) : List PostChunk :=
  match PostChunk.new v with
  | some p => if p.size = 0 then ch else heapPush ch p
  | none => ch

/-- The iterator `IntoIter::next` of `PostHeap`, run to exhaustion: take
from the chunk at `place`; if it empties move `place` forward, otherwise
sift it down; stop when `place` passes the end.  `fuel` bounds the number
of delivered entries (the total heap size suffices). -/
def heapIter (fuel : Nat) (ch : List PostChunk) (place : Nat) : List Nat :=
  match fuel with
  | 0 => []
  | fuel + 1 =>
    if place < ch.length then
      match chunkNext (ch.getD place default) with
      | some (e, c2) =>
        let ch2 := ch.set place c2
        if c2.size = 0 then e :: heapIter fuel ch2 (place + 1)
        else e :: heapIter fuel (siftDown ch2 place) place
      | none => []
    else []

/-- Iterating a `PostHeap` from the start, with enough fuel for every
entry. -/
def heapRun (ch : List PostChunk) : List Nat :=
  heapIter ((ch.map (fun c => c.size)).sum) ch 0

/-- Claim C4, evaluated: the K-way merge violates the ordering invariant:
feeding `PostHeap` the three
individually sorted runs `[1]`, `[10,11]`, `[2,3]` yields
`[1, 10, 11, 2, 3]`, which is not in non-decreasing packed-u64 order —
once the first chunk empties, `place` moves to slot 1 and the heap never
reconsiders the subtree holding `[2,3]`.  (The entries are packed u64
values with trigram field 0; each run is individually sorted.) -/
theorem claim_C4_postheap_eval :
    heapRun (addMem (addMem (addMem [] [1]) [10, 11]) [2, 3]) =
      [1, 10, 11, 2, 3] ∧
    ¬ List.Pairwise (· ≤ ·) [1, 10, 11, 2, 3] := by
  refine ⟨by decide, ?_⟩
  intro h
  have := (List.pairwise_cons.1 (List.Pairwise.of_cons h)).1 2 (by simp)
  omega

/-! ## Index reader: query evaluation (claim C7)

Embedding of `IndexReader::query`, `find_list`, `PostSet::and` and
`PostSet::or` from `src/src/libcsearch/src/reader/read.rs`, and of the
binary search `search` (`src/src/index/search.rs`; the identical function
backs `reader::search` in libcsearch).
-/

/-- A reader over an opened index: the post-index entries
(trigram, count, offset), the posting-data section and the name count. -/
structure Rdr where
  postIndex : List (Nat × Nat × Nat)
  postData : List Nat
  numName : Nat

/-- The loop of the Go-style binary search `search(n, f)`: smallest
`i < n` with `f i`, or `n`; the fuel only bounds the iteration count
(`n` iterations always suffice, as the interval halves). -/
def searchLoop : Nat → Nat → Nat → (Nat → Bool) → Nat
  | 0, i, _, _ => i
  | fuel + 1, i, j, f =>
    if i < j then
      let h := i + (j - i) / 2
      if ¬ f h then searchLoop fuel (h + 1) j f
      else searchLoop fuel i h f
    else i

/-- The function `search` of `src/src/index/search.rs`. -/
def search (n : Nat) (f : Nat → Bool) : Nat :=
  searchLoop n 0 n f

/-- The method `IndexReader::find_list`: binary search the post index on
the trigram field and return `(count, offset)`, or `(0, 0)` when the
entry found is out of range or holds a different trigram. -/
def find_list (r : Rdr) (trigram : Nat) : Nat × Nat :=
  let result := search r.postIndex.length
    (fun i => (r.postIndex.getD i (0, 0, 0)).1 ≥ trigram)
  if result ≥ r.postIndex.length then (0, 0)
  else if (r.postIndex.getD result (0, 0, 0)).1 ≠ trigram then (0, 0)
  else ((r.postIndex.getD result (0, 0, 0)).2.1, (r.postIndex.getD result (0, 0, 0)).2.2)

/-- The helper `PostSet::make_view`: none when `find_list` reports no
entries, otherwise the posting bytes after the 3-byte trigram at the
offset, with the count. -/
def makeView (r : Rdr) (t : Nat) : Option (List Nat × Nat) :=
  if (find_list r t).1 = 0 then none
  else some (r.postData.drop ((find_list r t).2 + 3), (find_list r t).1)

/-- The delta-decoding loop shared by `PostSet::and` and `PostSet::or`:
read `count` varint deltas, failing (`panic!("corrupt index")`) on a bad
varint or a zero delta, accumulating file ids by wrapping addition from
`u32::MAX` (the `fileid : i64` in the source starts at -1 and file ids
are taken `as u32`). -/
def decodePostList (d : List Nat) (count prev : Nat) : Option (List Nat) :=
  match count with
  | 0 => some []
  | c + 1 =>
    match read_uvarint d with
    | .error _ => none
    | .ok (delta, n) =>
      if n = 0 ∨ delta = 0 then none
      else (decodePostList (d.drop n) c (wadd32 prev delta)).map (wadd32 prev delta :: ·)

/-- The method `PostSet::and`: none when the trigram has no posting list;
otherwise the decoded ids that are already in the set (an `Except.error`
models the corrupt-index panic). -/
def psAnd (r : Rdr) (list : Finset Nat) (t : Nat) :
    Except Unit (Option (Finset Nat)) :=
  match makeView r t with
  | none => .ok none
  | some (d, count) =>
    match decodePostList d count u32Max with
    | none => .error ()
    | some fids => .ok (some (fids.filter (· ∈ list)).toFinset)

/-- The method `PostSet::or`: the set unchanged when the trigram has no
posting list, otherwise the union with the decoded ids. -/
def psOr (r : Rdr) (list : Finset Nat) (t : Nat) :
    Except Unit (Option (Finset Nat)) :=
  match makeView r t with
  | none => .ok (some list)
  | some (d, count) =>
    match decodePostList d count u32Max with
    | none => .error ()
    | some fids => .ok (some (list ∪ fids.toFinset))

/-- The trigram value `(t[0] << 16) | (t[1] << 8) | t[2]` computed from a
trigram byte string in `IndexReader::query`. -/
def triVal (t : Trig) : Nat :=
  (t.getD 0 0) <<< 16 ||| (t.getD 1 0) <<< 8 ||| t.getD 2 0

/-- The AND fold over the remaining trigrams of an AND query
(`trigram_it.fold(s, |a, b| a.and(b).unwrap_or(PostSet::new(self)))`). -/
def andTris (r : Rdr) (acc : Finset Nat) : List Trig → Except Unit (Finset Nat)
  | [] => .ok acc
  | t :: ts =>
    match psAnd r acc (triVal t) with
    | .error e => .error e
    | .ok s => andTris r (s.getD ∅) ts

/-- The OR fold over the trigrams of an OR query. -/
def orTris (r : Rdr) (acc : Finset Nat) : List Trig → Except Unit (Finset Nat)
  | [] => .ok acc
  | t :: ts =>
    match psOr r acc (triVal t) with
    | .error e => .error e
    | .ok s => orTris r (s.getD ∅) ts

mutual

/-- The method `IndexReader::query`: NONE yields the empty set, ALL every
file id below `num_name`; AND seeds the set from its first trigram (or,
with no trigrams, from its first subquery, returning the empty set when
both are absent), folds `and` over the remaining trigrams and intersects
the subquery results; OR folds `or` over its trigrams and unions the
subquery results. -/
def queryEval (r : Rdr) : Query → Except Unit (Finset Nat)
  | .mk .None _ _ => .ok ∅
  | .mk .All _ _ => .ok (Finset.range r.numName)
  | .mk .And tris subs =>
    match tris with
    | [] =>
      match subs with
      | [] => .ok ∅
      | q :: qs =>
        match queryEval r q with
        | .error e => .error e
        | .ok first => andSubs r first qs
    | t0 :: ts =>
      match psOr r ∅ (triVal t0) with
      | .error e => .error e
      | .ok s0 =>
        match andTris r (s0.getD ∅) ts with
        | .error e => .error e
        | .ok acc => andSubs r acc subs
  | .mk .Or tris subs =>
    match orTris r ∅ tris with
    | .error e => .error e
    | .ok acc => orSubs r acc subs

/-- Intersection of the subquery results in an AND query. -/
def andSubs (r : Rdr) (acc : Finset Nat) : List Query → Except Unit (Finset Nat)
  | [] => .ok acc
  | q :: qs =>
    match queryEval r q with
    | .error e => .error e
    | .ok b => andSubs r (acc ∩ b) qs

/-- Union of the subquery results in an OR query. -/
def orSubs (r : Rdr) (acc : Finset Nat) : List Query → Except Unit (Finset Nat)
  | [] => .ok acc
  | q :: qs =>
    match queryEval r q with
    | .error e => .error e
    | .ok b => orSubs r (acc ∪ b) qs

end

theorem find_list_missing (r : Rdr) (t : Nat)
    (h : t ∉ r.postIndex.map (fun p => p.1)) : find_list r t = (0, 0) := by
  rw [find_list]
  by_cases hr : search r.postIndex.length
      (fun i => (r.postIndex.getD i (0, 0, 0)).1 ≥ t) ≥ r.postIndex.length
  · rw [if_pos hr]
  · rw [if_neg hr]
    rw [if_pos ?_]
    have hlt : search r.postIndex.length
        (fun i => (r.postIndex.getD i (0, 0, 0)).1 ≥ t) < r.postIndex.length := by
      omega
    intro he
    refine h ?_
    rw [← he]
    refine List.mem_map_of_mem _ ?_
    rw [List.getD_eq_getElem _ _ hlt]
    exact List.getElem_mem hlt

/-- Claim C7: query evaluation never fails because of an absent trigram:
`find_list` yields `(0, 0)` for a trigram with no post-index entry; a
NONE query evaluates to the empty set and an ALL query to every file id
below `num_name`; a missing posting list makes `PostSet::and` return the
empty-set signal and `PostSet::or` return the accumulator unchanged, both
without error; and the AND trigram fold started from the empty seed can
only produce the empty set (or the corrupt-index failure, which missing
lists never trigger). -/
theorem claim_C7_missing_trigram :
    (∀ (r : Rdr) (t : Nat), t ∉ r.postIndex.map (fun p => p.1) →
      find_list r t = (0, 0)) ∧
    (∀ (r : Rdr) (tris : List Trig) (subs : List Query),
      queryEval r (Query.mk .None tris subs) = .ok ∅) ∧
    (∀ (r : Rdr) (tris : List Trig) (subs : List Query),
      queryEval r (Query.mk .All tris subs) = .ok (Finset.range r.numName)) ∧
    (∀ (r : Rdr) (list : Finset Nat) (t : Nat), (find_list r t).1 = 0 →
      psAnd r list t = .ok none ∧ psOr r list t = .ok (some list)) ∧
    (∀ (r : Rdr) (ts : List Trig),
      andTris r ∅ ts = .ok ∅ ∨ andTris r ∅ ts = .error ()) := by
  refine ⟨find_list_missing, fun r tris subs => rfl, fun r tris subs => rfl,
    ?_, ?_⟩
  · intro r list t hf
    constructor
    · rw [psAnd, makeView, if_pos hf]
    · rw [psOr, makeView, if_pos hf]
  · intro r ts
    induction ts with
    | nil => exact Or.inl rfl
    | cons t ts2 ih =>
      rcases hps : psAnd r ∅ (triVal t) with e | s
      · rw [andTris, hps]
        exact Or.inr rfl
      · have hs : s.getD ∅ = ∅ := by
          rw [psAnd] at hps
          split at hps
          · cases hps
            rfl
          · split at hps
            · cases hps
            · cases hps
              simp
        rw [andTris, hps]
        show andTris r (s.getD ∅) ts2 = _ ∨ andTris r (s.getD ∅) ts2 = _
        rw [hs]
        exact ih

/-- Witness for claim C7: a concrete two-entry index (one real trigram
and the sentinel); the absent trigram 5 yields `(0, 0)` and the
no-posting-list behaviours follow. -/
theorem claim_C7_missing_trigram_witness :
    find_list ⟨[(100, 1, 0), (16777215, 0, 0)], [0, 0, 100, 1, 0], 3⟩ 5 = (0, 0) ∧
    psOr ⟨[(100, 1, 0), (16777215, 0, 0)], [0, 0, 100, 1, 0], 3⟩ {2} 5 =
      .ok (some {2}) := by
  have h1 := claim_C7_missing_trigram.1
    ⟨[(100, 1, 0), (16777215, 0, 0)], [0, 0, 100, 1, 0], 3⟩ 5 (by decide)
  refine ⟨h1, ?_⟩
  exact (claim_C7_missing_trigram.2.2.2.1
    ⟨[(100, 1, 0), (16777215, 0, 0)], [0, 0, 100, 1, 0], 3⟩ {2} 5 (by rw [h1])).2

/-! ## Regex analyzer (claim C5)

Embedding of `RegexInfo::new` and its helpers (`analyze`, `concat`,
`alternate`, `add_exact`, `simplify`, `simplify_set`, `and_trigrams`,
`and_or`, `cross_product`, `min_string_len`) from
`src/src/libcsearch/src/regexp.rs`.  A `StringSet` (`BTreeSet<Vec<u8>>`)
is modelled as a lexicographically sorted duplicate-free list of byte
strings; all set operations preserve that invariant, so folds iterate in
the `BTreeSet`'s ascending order.  The `regex_syntax::Expr` fragment
covers exactly the constructors `analyze` handles that the verified
regexes reach: case-sensitive literals (`LiteralBytes { casei: false }`,
which char literals are converted into), ASCII character classes (whose
UTF-8 encoding is the single byte, so `Expr::Class` and
`Expr::ClassBytes` behave identically), concatenation, alternation,
repetition, groups and the zero-width anchors. -/

/-- Strict lexicographic order on byte strings (the `Ord` instance of
`Vec<u8>` backing the `BTreeSet`). -/
def lexLt : List Nat → List Nat → Bool
  | [], [] => false
  | [], _ :: _ => true
  | _ :: _, [] => false
  | a :: as2, b :: bs2 =>
    if a < b then true
    else if b < a then false
    else lexLt as2 bs2

/-- Ordered duplicate-free insertion (a `BTreeSet::insert`). -/
def ssInsert (x : List Nat) : List (List Nat) → List (List Nat)
  | [] => [x]
  | y :: ys =>
    if lexLt x y then x :: y :: ys
    else if x = y then y :: ys
    else y :: ssInsert x ys

/-- The helper `union` of regexp.rs (on sorted duplicate-free lists). -/
def ssUnion (s t : List (List Nat)) : List (List Nat) :=
  t.foldl (fun acc x => ssInsert x acc) s

/-- The helper `intersection` of regexp.rs. -/
def ssInter (s t : List (List Nat)) : List (List Nat) :=
  s.filter (fun x => t.any (fun y => y = x))

/-- The helper `difference` of regexp.rs. -/
def ssDiff (s t : List (List Nat)) : List (List Nat) :=
  s.filter (fun x => ! t.any (fun y => y = x))

/-- The helper `cross_product`: all concatenations, as a set. -/
def cross_product (s t : List (List Nat)) : List (List Nat) :=
  s.foldl (fun p a => t.foldl (fun p2 b => ssInsert (a ++ b) p2) p) []

/-- The helper `min_string_len`: length of the shortest string, 0 for an
empty set (`min().unwrap_or(0)`). -/
def min_string_len (xs : List (List Nat)) : Nat :=
  match xs with
  | [] => 0
  | y :: ys => ys.foldl (fun m s => Nat.min m s.length) y.length

/-- The method `Query::simplify`: a node with no trigrams and exactly one
subquery is replaced by that subquery. -/
def qSimplify : Query → Query
  | .mk _ [] [s] => s
  | q => q

/-- The method `Query::is_atom`: one trigram, no subqueries. -/
def isAtom (q : Query) : Bool :=
  q.trigram.length = 1 && q.sub.isEmpty

/-- The function `and_or` of regexp.rs with an explicit bound on the
depth of its trigram-factoring recursion.  Each recursive call strictly
shrinks the queries (the nonempty set of common trigrams is removed from
both sides, and `Query::simplify` only ever replaces a node by one of its
subtrees), and the queries handled in this development are tiny, so the
fuel below is never exhausted; the fallback arm is unreachable. -/
def andOrF : Nat → Query → Query → QueryOperation → Query
  | 0, q, r, op => Query.mk op [] [q, r]
  | fuel + 1, q0, r0, op =>
    let q := qSimplify q0
    let r := qSimplify r0
    if impliesB q r then (if op = .And then q else r)
    else if impliesB r q then (if op = .And then r else q)
    else if q.operation = op && (r.operation = op || isAtom r) then
      Query.mk op (ssUnion q.trigram r.trigram) (q.sub ++ r.sub)
    else if r.operation = op && isAtom q then
      Query.mk op (ssUnion r.trigram q.trigram) r.sub
    else if isAtom q && isAtom r then
      Query.mk op (ssUnion q.trigram r.trigram) q.sub
    else if q.operation = op then
      Query.mk op q.trigram (q.sub ++ [r])
    else if r.operation = op then
      Query.mk op r.trigram (r.sub ++ [q])
    else
      let common := ssInter q.trigram r.trigram
      let q2 := Query.mk q.operation (ssDiff q.trigram common) q.sub
      let r2 := Query.mk r.operation (ssDiff r.trigram common) r.sub
      if common.isEmpty then Query.mk op [] [q2, r2]
      else
        let s := andOrF fuel q2 r2 op
        let newOp : QueryOperation := if op = .And then .Or else .And
        andOrF fuel (Query.mk newOp common []) s newOp

/-- `and_or` with fuel ample for every query built in this development
(the recursion depth is bounded by the number of shared top-level
trigram literals, which never approaches 100 here). -/
def and_or (q r : Query) (op : QueryOperation) : Query :=
  andOrF 100 q r op

/-- The function `and_trigrams`: AND onto `q` the OR, over the strings of
`t`, of the AND of each string's trigram windows; a no-op when some
string is shorter than 3 bytes. -/
def and_trigrams (q : Query) (t : List (List Nat)) : Query :=
  if min_string_len t < 3 then q
  else
    let orq := t.foldl (fun acc s =>
      let tri := (List.range (s.length - 2)).foldl
        (fun tr i => ssInsert ((s.drop i).take 3) tr) []
      and_or acc (Query.mk .And tri []) .Or) (Query.mk .None [] [])
    and_or q orq .And

/-- The `RegexInfo` structure of regexp.rs (`pre`/`suf` are its `prefix`
and `suffix` fields). -/
structure RegexInfo where
  can_empty : Bool
  exact_set : Option (List (List Nat))
  pre : List (List Nat)
  suf : List (List Nat)
  query : Query
deriving Repr

/-- `RegexInfo::no_match`. -/
def no_match : RegexInfo :=
  ⟨false, none, [], [], Query.mk .None [] []⟩

/-- `RegexInfo::empty_string`: matches only the empty string. -/
def empty_string : RegexInfo :=
  ⟨true, some [[]], [], [], Query.mk .All [] []⟩

/-- `RegexInfo::any_char`. -/
def any_char : RegexInfo :=
  ⟨false, none, [[]], [[]], Query.mk .All [] []⟩

/-- `RegexInfo::any_match`. -/
def any_match : RegexInfo :=
  ⟨true, none, [[]], [[]], Query.mk .All [] []⟩

/-- The function `add_exact`: AND the trigrams of the exact set onto the
query; a no-op when there is no exact set. -/
def add_exact (x : RegexInfo) : RegexInfo :=
  match x.exact_set with
  | some ex => { x with query := and_trigrams x.query ex }
  | none => x

/-- The simplification trigger of `simplify` (the condition
`exact.len() > 7 || (min_string_len(&exact) >= 3 && force) ||
min_string_len(&exact) >= 4`, evaluated twice on the same values). -/
def simplifyCond (exact : List (List Nat)) (force : Bool) : Bool :=
  decide (7 < exact.length) ||
    (decide (3 ≤ min_string_len exact) && force) ||
    decide (4 ≤ min_string_len exact)

/-- One pass of the truncation loop in `simplify_set`: any string of
length at least `n` is cut to its first (or, for a suffix set, last)
`n - 1` bytes. -/
def shorten (is_suffix : Bool) (n : Nat) (set : List (List Nat)) :
    List (List Nat) :=
  set.foldl (fun t s =>
    ssInsert
      (if n ≤ s.length then
        (if is_suffix then s.drop (s.length - (n - 1)) else s.take (n - 1))
      else s) t) []

/-- The `while n == 3 || len > 20` truncation loop of `simplify_set`,
with `n` starting at 3.  The pass at `n = 1` maps every string to a
string of length 0, leaving a set of size 1, so the loop runs at most
three times and fuel 4 is always enough. -/
def simplifySetLoop (is_suffix : Bool) : Nat → Nat → List (List Nat) →
    List (List Nat)
  | 0, _, set => set
  | fuel + 1, n, set =>
    if n = 3 || decide (20 < set.length) then
      simplifySetLoop is_suffix fuel (n - 1) (shorten is_suffix n set)
    else set

/-- The redundancy-removal pass of `simplify_set`: walking the set in
ascending order, keep a string only if the previously kept string is not
a prefix (for a suffix set) or suffix (for a prefix set) of it. -/
def dedupLoop (is_suffix : Bool) : List (List Nat) → List (List Nat) →
    Option (List Nat) → List (List Nat)
  | [], u, _ => u
  | s :: rest, u, last =>
    let redundant :=
      match last with
      | none => false
      | some l => if is_suffix then l.isPrefixOf s else l.isSuffixOf s
    if u.isEmpty || ! redundant then
      dedupLoop is_suffix rest (ssInsert s u) (some s)
    else dedupLoop is_suffix rest u last

/-- The function `simplify_set`: AND the set's trigrams onto the query,
then truncate the set and drop redundant strings; returns the new query
and the mutated set. -/
def simplify_set (q : Query) (set : List (List Nat)) (is_suffix : Bool) :
    Query × List (List Nat) :=
  let q2 := and_trigrams q set
  let set2 := simplifySetLoop is_suffix 4 3 set
  (q2, dedupLoop is_suffix set2 [] none)

/-- The function `simplify` of regexp.rs: when the exact set is large (or
long enough, or forced), AND its trigrams onto the query, move its
two-byte prefixes and suffixes into the prefix and suffix sets and drop
it; whenever no exact set remains, run `simplify_set` on the prefix set
and then the suffix set. -/
def simplify (info : RegexInfo) (force : Bool) : RegexInfo :=
  let do_simplify :=
    match info.exact_set with
    | some ex => simplifyCond ex force
    | none => false
  let info1 := if do_simplify then add_exact info else info
  let info2 :=
    match info1.exact_set with
    | some ex =>
      if simplifyCond ex force then
        ex.foldl (fun (i : RegexInfo) (s : List Nat) =>
          if s.length < 3 then
            { i with pre := ssInsert s i.pre, suf := ssInsert s i.suf }
          else
            { i with pre := ssInsert (s.take 2) i.pre,
                     suf := ssInsert (s.drop (s.length - 2)) i.suf }) info1
      else info1
    | none => info1
  let info3 := if do_simplify then { info2 with exact_set := none } else info2
  match info3.exact_set with
  | none =>
    let (q1, p1) := simplify_set info3.query info3.pre false
    let (q2, s1) := simplify_set q1 info3.suf true
    { info3 with query := q2, pre := p1, suf := s1 }
  | some _ => info3

/-- The function `concat` of regexp.rs (`RegexInfo::default()` leaves
`can_empty` false, which `concat` never assigns). -/
def concat (x y : RegexInfo) : RegexInfo :=
  let xy : RegexInfo :=
    { can_empty := false
      exact_set :=
        match x.exact_set, y.exact_set with
        | some xs, some ys => some (cross_product xs ys)
        | _, _ => none
      pre :=
        match x.exact_set, y.exact_set with
        | some _, some _ => []
        | some xs, none => cross_product xs y.pre
        | none, _ => if x.can_empty then ssUnion x.pre y.pre else x.pre
      suf :=
        match x.exact_set, y.exact_set with
        | some _, some _ => []
        | none, some ys => cross_product x.suf ys
        | _, none => if y.can_empty then ssUnion y.suf x.suf else y.suf
      query := and_or x.query y.query .And }
  let xy2 :=
    if x.exact_set.isNone && y.exact_set.isNone &&
        decide (x.suf.length ≤ 20) && decide (y.pre.length ≤ 20) &&
        decide (3 ≤ min_string_len x.suf + min_string_len y.pre) then
      { xy with query := and_trigrams xy.query (cross_product x.suf y.pre) }
    else xy
  simplify xy2 false

/-- The function `alternate` of regexp.rs. -/
def alternate (x y : RegexInfo) : RegexInfo :=
  let (pre2, suf2, exact2, aex, aey) :=
    match x.exact_set, y.exact_set with
    | some xs, some ys =>
      (([] : List (List Nat)), ([] : List (List Nat)),
        some (ssUnion xs ys), false, false)
    | some xs, none => (ssUnion xs y.pre, ssUnion xs y.suf, none, true, false)
    | none, some ys => (ssUnion x.pre ys, ssUnion x.suf ys, none, false, true)
    | none, none => (ssUnion x.pre y.pre, ssUnion x.suf y.suf, none, false, false)
  let x2 := if aex then add_exact x else x
  let y2 := if aey then add_exact y else y
  simplify
    { can_empty := x.can_empty || y.can_empty
      exact_set := exact2
      pre := pre2
      suf := suf2
      query := and_or x2.query y2.query .Or } false

/-- The `regex_syntax::Repeater` values `analyze` distinguishes
(`Range {..}` takes the same arm as `ZeroOrMore`, so its bounds are
dropped). -/
inductive Repeater where
  | ZeroOrOne
  | ZeroOrMore
  | OneOrMore
  | Range
deriving DecidableEq, Repr

/-- The `regex_syntax::Expr` fragment reaching `analyze` in the verified
regexes; `Literal` holds the UTF-8 bytes of a case-sensitive literal and
`Class` the (ASCII) codepoint ranges of a character class. -/
inductive Expr where
  | Empty
  | StartLine
  | EndLine
  | StartText
  | EndText
  | WordBoundary
  | NotWordBoundary
  | Literal (bytes : List Nat)
  | AnyChar
  | AnyByte
  | Concat (exprs : List Expr)
  | Alternate (v : List Expr)
  | Repeat (e : Expr) (r : Repeater)
  | Class (ranges : List (Nat × Nat))
  | Group (e : Expr)
deriving Repr

/-- The singleton strings of an ASCII class range, in ascending order
(the UTF-8 encoding of a codepoint below 0x80 is that single byte). -/
def rangeSet (s e : Nat) : List (List Nat) :=
  (List.range (e + 1 - s)).map (fun i => [s + i])

/-- The range loop of `analyze`'s class arms: a descending range is an
error, a range wider than 100 makes the whole class `any_char`
(`inl ()`), and otherwise the ranges' singleton sets are unioned into the
exact set. -/
def classFold : List (Nat × Nat) → Option (List (List Nat)) →
    Except String (Sum Unit (Option (List (List Nat))))
  | [], acc => .ok (.inr acc)
  | (s, e) :: rest, acc =>
    if e < s then .error "range not in ascending order"
    else if 100 < e - s then .ok (.inl ())
    else
      classFold rest (some
        (match acc with
        | some ex => ssUnion ex (rangeSet s e)
        | none => rangeSet s e))

/-- The function `RegexInfo::analyze`, with fuel bounding only the
recursion depth in the expression tree: any fuel at least the height of
the expression computes the source function, and the out-of-fuel arm is
never reached in this development. -/
def analyzeF : Nat → Expr → Except String RegexInfo
  | 0, _ => .error "recursion limit"
  | fuel + 1, e =>
    match e with
    | .Empty | .StartLine | .EndLine | .StartText | .EndText
    | .WordBoundary | .NotWordBoundary => .ok empty_string
    | .Literal bytes =>
      .ok (simplify ⟨false, some [bytes], [], [], Query.mk .All [] []⟩ false)
    | .AnyChar | .AnyByte => .ok any_char
    | .Concat [] => .ok empty_string
    | .Concat (e0 :: rest) =>
      rest.foldl (fun a b =>
        match a, analyzeF fuel b with
        | .ok ai, .ok bi => .ok (concat ai bi)
        | .error err, _ => .error err
        | _, .error err => .error err) (analyzeF fuel e0)
    | .Alternate [] => .ok no_match
    | .Alternate (e0 :: rest) =>
      rest.foldl (fun a b =>
        match a, analyzeF fuel b with
        | .ok ai, .ok bi => .ok (alternate ai bi)
        | .error err, _ => .error err
        | _, .error err => .error err) (analyzeF fuel e0)
    | .Repeat e2 rep =>
      match rep with
      | .ZeroOrOne =>
        match analyzeF fuel e2 with
        | .error err => .error err
        | .ok i => .ok (alternate i empty_string)
      | .ZeroOrMore => .ok any_match
      | .Range => .ok any_match
      | .OneOrMore =>
        match analyzeF fuel e2 with
        | .error err => .error err
        | .ok i =>
          match i.exact_set with
          | some ex => .ok (simplify ⟨i.can_empty, none, ex, ex, i.query⟩ false)
          | none => .ok (simplify i false)
    | .Class [] => .ok no_match
    | .Class (r0 :: rs) =>
      match classFold (r0 :: rs) none with
      | .error err => .error err
      | .ok (.inl _) => .ok any_char
      | .ok (.inr exact) =>
        .ok (simplify ⟨false, exact, [], [], Query.mk .All [] []⟩ false)
    | .Group e2 => analyzeF fuel e2

/-- The constructor `RegexInfo::new`: analyze, force a simplify, then
`add_exact`. -/
def regexInfoNew (fuel : Nat) (e : Expr) : Except String RegexInfo :=
  match analyzeF fuel e with
  | .error err => .error err
  | .ok info => .ok (add_exact (simplify info true))

/-- The query of `RegexInfo::new(expr)`. -/
def regexQuery (fuel : Nat) (e : Expr) : Except String Query :=
  match regexInfoNew fuel e with
  | .error err => .error err
  | .ok info => .ok info.query

/-- Claim C5: the analyzer's queries for the four regexes.  `Abcdef`
yields "Abc" AND "bcd" AND "cde" AND "def"; `(abc|bac)de` yields "cde"
AND (("abc" AND "bcd") OR ("acd" AND "bac")); `ab[cde]f` yields ("abc"
AND "bcf") OR ("abd" AND "bdf") OR ("abe" AND "bef"); and `\d+` yields
ALL.  The expressions are the parse trees of the four regexes (literals
as their ASCII bytes, `[cde]` as the class range 99-101, `\d` as the
class range 48-57). -/
theorem claim_C5_analyzer_queries :
    regexQuery 10 (Expr.Literal [65, 98, 99, 100, 101, 102]) =
      .ok (Query.mk .And
        [[65, 98, 99], [98, 99, 100], [99, 100, 101], [100, 101, 102]] []) ∧
    regexQuery 10 (Expr.Concat
        [Expr.Group (Expr.Alternate
          [Expr.Literal [97, 98, 99], Expr.Literal [98, 97, 99]]),
         Expr.Literal [100, 101]]) =
      .ok (Query.mk .And [[99, 100, 101]]
        [Query.mk .Or []
          [Query.mk .And [[97, 98, 99], [98, 99, 100]] [],
           Query.mk .And [[97, 99, 100], [98, 97, 99]] []]]) ∧
    regexQuery 10 (Expr.Concat
        [Expr.Literal [97, 98], Expr.Class [(99, 101)],
         Expr.Literal [102]]) =
      .ok (Query.mk .Or []
        [Query.mk .And [[97, 98, 99], [98, 99, 102]] [],
         Query.mk .And [[97, 98, 100], [98, 100, 102]] [],
         Query.mk .And [[97, 98, 101], [98, 101, 102]] []]) ∧
    regexQuery 10 (Expr.Repeat (Expr.Class [(48, 57)]) .OneOrMore) =
      .ok (Query.mk .All [] []) :=
  ⟨rfl, rfl, rfl, rfl⟩

/-! ## Index merger (claim C6)

Embedding of `merge` and `merge_list_of_posting_lists` from
`src/src/libcindex/src/merge/merge.rs` and of `PostMapReader` from
`src/src/index/merge/postmapreader.rs`.  An opened index is modelled by
its name list (in file-id order) and its posting section as the list of
post-index entries `(trigram, file ids)` — including the writer's
`0xFFFFFF` sentinel entry with no ids — since the varint delta coding
between those ids and the disk bytes is the round-trip verified with
claims C2 and C3.  Names and paths are byte strings compared with
`lexLt`, the byte order `String`'s `<` uses.  Loops over ranges and
posting lists carry fuel that only bounds their iteration count; every
call site passes fuel larger than the iterations possible. -/

/-- The `IdRange` of postmapreader.rs: old ids `[low, high)` map to new
ids starting at `new`. -/
structure IdRange where
  low : Nat
  high : Nat
  new : Nat
deriving DecidableEq, Repr

/-- The `while i < num_name && name(i) < limit { i += 1 }` loops of
`merge`; fuel at least `names.length + 1` makes the loop exact. -/
def advLtF : Nat → List (List Nat) → List Nat → Nat → Nat
  | 0, _, _, i => i
  | f + 1, names, lim, i =>
    match names.get? i with
    | some nm => if lexLt nm lim then advLtF f names lim (i + 1) else i
    | none => i

/-- The shadow limit of a path: its last byte incremented
(`l1 + (l2_u + 1)`). -/
def limitOf (p : List Nat) : List Nat :=
  p.take (p.length - 1) ++ [p.getD (p.length - 1) 0 + 1]

/-- The docid-range construction loop of `merge` over the newer index's
paths, returning `(i1, i2, new, map1, map2)`; `none` models the
`merge: inconsistent index` panic. -/
def buildMaps : List (List Nat) → Nat → Nat → Nat → List IdRange →
    List IdRange → List (List Nat) → List (List Nat) →
    Option (Nat × Nat × Nat × List IdRange × List IdRange)
  | [], i1, i2, nw, m1, m2, _, _ => some (i1, i2, nw, m1, m2)
  | p :: rest, i1, i2, nw, m1, m2, n1, n2 =>
    let old := i1
    let lo := advLtF (n1.length + 1) n1 p i1
    let lim := limitOf p
    let i1b := advLtF (n1.length + 1) n1 lim lo
    let m1b := if old < lo then m1 ++ [⟨old, lo, nw⟩] else m1
    let nw1 := if old < lo then nw + (lo - old) else nw
    if i2 < n2.length && lexLt (n2.getD i2 []) p then none
    else
      let hi := advLtF (n2.length + 1) n2 lim i2
      let m2b := if i2 < hi then m2 ++ [⟨i2, hi, nw1⟩] else m2
      let nw2 := if i2 < hi then nw1 + (hi - i2) else nw1
      buildMaps rest i1b hi nw2 m1b m2b n1 n2

/-- The docid maps of `merge`: `buildMaps` over the newer paths, then the
trailing survivor range of the old index; yields
`(num_name, map1, map2)`. -/
def mergeMaps (n1 n2 paths2 : List (List Nat)) :
    Option (Nat × List IdRange × List IdRange) :=
  match buildMaps paths2 0 0 0 [] [] n1 n2 with
  | none => none
  | some (i1, i2, nw, m1, m2) =>
    let m1b := if i1 < n1.length then m1 ++ [⟨i1, n1.length, nw⟩] else m1
    let nwb := if i1 < n1.length then nw + (n1.length - i1) else nw
    if i2 < n2.length then none else some (nwb, m1b, m2)

/-- The names of a docid range, in order. -/
def nameRange (n : List (List Nat)) (lo hi : Nat) : List (List Nat) :=
  (List.range (hi - lo)).map (fun k => n.getD (lo + k) [])

/-- The merged-name loop of `merge` (`while new < num_name`): emit the
map entry whose `new` field equals the current counter, from either map;
`none` models the inconsistent-index panic.  Each iteration consumes one
map entry, so fuel `map1.length + map2.length + 1` is exact. -/
def namesLoopF : Nat → Nat → Nat → List IdRange → List IdRange → Nat →
    Nat → List (List Nat) → List (List Nat) → List (List Nat) →
    Option (List (List Nat))
  | 0, nw, numName, _, _, _, _, _, _, acc =>
    if numName ≤ nw then some acc else none
  | f + 1, nw, numName, m1, m2, mi1, mi2, n1, n2, acc =>
    if nw < numName then
      match m1.get? mi1 with
      | some r =>
        if r.new = nw then
          namesLoopF f (nw + (r.high - r.low)) numName m1 m2 (mi1 + 1) mi2
            n1 n2 (acc ++ nameRange n1 r.low r.high)
        else
          match m2.get? mi2 with
          | some r2 =>
            if r2.new = nw then
              namesLoopF f (nw + (r2.high - r2.low)) numName m1 m2 mi1
                (mi2 + 1) n1 n2 (acc ++ nameRange n2 r2.low r2.high)
            else none
          | none => none
      | none =>
        match m2.get? mi2 with
        | some r2 =>
          if r2.new = nw then
            namesLoopF f (nw + (r2.high - r2.low)) numName m1 m2 mi1
              (mi2 + 1) n1 n2 (acc ++ nameRange n2 r2.low r2.high)
          else none
        | none => none
    else some acc

/-- The state of a `PostMapReader`: the posting lists not yet loaded, the
docid map, and the current trigram, remaining old ids, translated file id
and map cursor `i`. -/
structure PMR where
  posts : List (Nat × List Nat)
  idMap : List IdRange
  trigram : Nat
  ids : List Nat
  file_id : Nat
  i : Nat
deriving Repr

/-- `PostMapReader::load`: past the last entry the trigram and file id
become `u32::MAX`; an entry with no ids (count 0, as the sentinel entry)
sets only the file id to `u32::MAX`; otherwise the ids are installed and
the map cursor reset, the stale `file_id` (never read before the next
`next_id`) kept. -/
def loadPMR (idMap : List IdRange) (fid : Nat) :
    List (Nat × List Nat) → PMR
  | [] => ⟨[], idMap, u32Max, [], u32Max, 0⟩
  | (t, ids) :: rest =>
    if ids.isEmpty then ⟨rest, idMap, t, [], u32Max, 0⟩
    else ⟨rest, idMap, t, ids, fid, 0⟩

/-- `PostMapReader::new` (initial `file_id` is 0). -/
def newPMR (posts : List (Nat × List Nat)) (idMap : List IdRange) : PMR :=
  loadPMR idMap 0 posts

/-- `PostMapReader::next_trigram`. -/
def PMR.next_trigram (r : PMR) : PMR :=
  loadPMR r.idMap r.file_id r.posts

/-- The `while self.i < len && map[i].high <= old_id` cursor advance of
`next_id`; fuel at least `idMap.length + 1` makes it exact. -/
def cursorAdvanceF : Nat → List IdRange → Nat → Nat → Nat
  | 0, _, _, i => i
  | f + 1, m, oldId, i =>
    match m.get? i with
    | some r => if r.high ≤ oldId then cursorAdvanceF f m oldId (i + 1) else i
    | none => i

/-- The `while count > 0` body of `PostMapReader::next_id`: decode the
next old id, advance the map cursor past exhausted ranges; falling off
the map zeroes the count (drops the remaining ids) and yields false, an
id below the current range is skipped, and an id inside it is translated.
Fuel at least `ids.length + 1` makes the loop exact. -/
def nextIdLoopF : Nat → PMR → Bool × PMR
  | 0, r => (false, r)
  | f + 1, r =>
    match r.ids with
    | [] => (false, { r with file_id := u32Max })
    | oldId :: rest =>
      let i2 := cursorAdvanceF (r.idMap.length + 1) r.idMap oldId r.i
      match r.idMap.get? i2 with
      | none => (false, { r with ids := [], i := i2, file_id := u32Max })
      | some rng =>
        if oldId < rng.low then
          nextIdLoopF f { r with ids := rest, i := i2 }
        else
          (true, { r with ids := rest, i := i2,
                          file_id := rng.new + oldId - rng.low })

/-- `PostMapReader::next_id`. -/
def PMR.next_id (r : PMR) : Bool × PMR :=
  nextIdLoopF (r.ids.length + 1) r

/-- The `while r.next_id() { w.file_id(r.file_id) }` loops of
`merge_list_of_posting_lists`; fuel at least `ids.length + 1` is
exact. -/
def collectIdsF : Nat → PMR → List Nat × PMR
  | 0, r => ([], r)
  | f + 1, r =>
    let (ok, r2) := PMR.next_id r
    if ok then
      let (l, r3) := collectIdsF f r2
      (r2.file_id :: l, r3)
    else ([], r2)

/-- The id-interleaving loop of the equal-trigram branch: emit the
smaller translated id and advance that reader; equal ids are the
inconsistent-index panic (`none`). -/
def mergeIdsF : Nat → PMR → PMR → List Nat →
    Option (List Nat × PMR × PMR)
  | 0, _, _, _ => none
  | f + 1, r1, r2, acc =>
    if r1.file_id < u32Max || r2.file_id < u32Max then
      if r1.file_id < r2.file_id then
        let (_, r1b) := PMR.next_id r1
        mergeIdsF f r1b r2 (acc ++ [r1.file_id])
      else if r2.file_id < r1.file_id then
        let (_, r2b) := PMR.next_id r2
        mergeIdsF f r1 r2b (acc ++ [r2.file_id])
      else none
    else some (acc, r1, r2)

/-- `PostDataWriter::end_trigram` skips a list that received no ids, so
only nonempty lists get a post-index entry. -/
def endTri (t : Nat) (ids : List Nat) : List (Nat × List Nat) :=
  if ids.isEmpty then [] else [(t, ids)]

/-- The main loop of `merge_list_of_posting_lists`: copy the side with
the smaller trigram (ids translated through its map), interleave equal
trigrams, stop when both sides are exhausted (`trigram = u32::MAX`).
Each iteration consumes at least one posting list, so fuel
`posts1 + posts2 + 2` is ample. -/
def mergePostF : Nat → PMR → PMR → List (Nat × List Nat) →
    Option (List (Nat × List Nat))
  | 0, _, _, _ => none
  | f + 1, r1, r2, acc =>
    if r1.trigram < r2.trigram then
      let (ids, r1b) := collectIdsF (r1.ids.length + 1) r1
      mergePostF f r1b.next_trigram r2 (acc ++ endTri r1.trigram ids)
    else if r2.trigram < r1.trigram then
      let (ids, r2b) := collectIdsF (r2.ids.length + 1) r2
      mergePostF f r1 r2b.next_trigram (acc ++ endTri r2.trigram ids)
    else if r1.trigram = u32Max then some acc
    else
      let (_, r1a) := PMR.next_id r1
      let (_, r2a) := PMR.next_id r2
      match mergeIdsF (r1a.ids.length + r2a.ids.length + 4) r1a r2a [] with
      | none => none
      | some (ids, r1b, r2b) =>
        mergePostF f r1b.next_trigram r2b.next_trigram
          (acc ++ endTri r1.trigram ids)

/-- `merge_list_of_posting_lists` over two modelled indexes. -/
def merge_post_lists (posts1 posts2 : List (Nat × List Nat))
    (m1 m2 : List IdRange) : Option (List (Nat × List Nat)) :=
  mergePostF (posts1.length + posts2.length + 2) (newPMR posts1 m1)
    (newPMR posts2 m2) []

/-- The merge of two modelled indexes (old names and posting lists, new
names and posting lists, the newer index's paths): the merged name list
and posting lists, or `none` on any inconsistent-index panic. -/
def mergeIndex (n1 : List (List Nat)) (posts1 : List (Nat × List Nat))
    (n2 : List (List Nat)) (posts2 : List (Nat × List Nat))
    (paths2 : List (List Nat)) :
    Option (List (List Nat) × List (Nat × List Nat)) :=
  match mergeMaps n1 n2 paths2 with
  | none => none
  | some (numName, m1, m2) =>
    match namesLoopF (m1.length + m2.length + 1) 0 numName m1 m2 0 0
        n1 n2 [] with
    | none => none
    | some names3 =>
      match merge_post_lists posts1 posts2 m1 m2 with
      | none => none
      | some posts3 => some (names3, posts3)

/-- Translation of one old id through a docid map (the semantics of
`next_id`'s cursor on a map sorted by `low`): dropped when shadowed,
shifted into the new id space when surviving. -/
def remapId (m : List IdRange) (old : Nat) : Option Nat :=
  match m with
  | [] => none
  | r :: rest =>
    if old < r.high then
      if r.low ≤ old then some (r.new + old - r.low) else none
    else remapId rest old

/-- Translation of a whole posting list through a docid map. -/
def remapList (m : List IdRange) (ids : List Nat) : List Nat :=
  ids.filterMap (remapId m)

/-- Ordered insertion, the auxiliary of an insertion sort used as a
kernel-evaluable equivalent of `sortPost` (proved below). -/
def insItem (x : Nat) : List Nat → List Nat
  | [] => [x]
  | y :: ys => if x ≤ y then x :: y :: ys else y :: insItem x ys

/-- Insertion sort on the posting buffer. -/
def insSort : List Nat → List Nat
  | [] => []
  | x :: xs => insItem x (insSort xs)

theorem insItem_perm (x : Nat) (l : List Nat) :
    List.Perm (insItem x l) (x :: l) := by
  induction l with
  | nil => exact List.Perm.refl _
  | cons y ys ih =>
    rw [insItem]
    by_cases h : x ≤ y
    · rw [if_pos h]
    · rw [if_neg h]
      exact (ih.cons y).trans (List.Perm.swap x y ys)

theorem insSort_perm (l : List Nat) : List.Perm (insSort l) l := by
  induction l with
  | nil => exact List.Perm.refl _
  | cons x xs ih => exact (insItem_perm x (insSort xs)).trans (ih.cons x)

theorem insItem_sorted {x : Nat} {l : List Nat}
    (h : List.Pairwise (· ≤ ·) l) :
    List.Pairwise (· ≤ ·) (insItem x l) := by
  induction l with
  | nil => simp [insItem]
  | cons y ys ih =>
    rw [insItem]
    rcases List.pairwise_cons.1 h with ⟨hy, hys⟩
    by_cases hxy : x ≤ y
    · rw [if_pos hxy]
      refine List.pairwise_cons.2 ⟨?_, h⟩
      intro b hb
      rcases List.mem_cons.1 hb with rfl | hb
      · exact hxy
      · exact le_trans hxy (hy b hb)
    · rw [if_neg hxy]
      refine List.pairwise_cons.2 ⟨?_, ih hys⟩
      intro b hb
      rcases List.mem_cons.1 ((insItem_perm x ys).mem_iff.1 hb) with rfl | hb
      · omega
      · exact hy b hb

theorem insSort_sorted (l : List Nat) :
    List.Pairwise (· ≤ ·) (insSort l) := by
  induction l with
  | nil => exact List.Pairwise.nil
  | cons x xs ih => exact insItem_sorted ih

/-- `sortPost` (the `Vec::sort` the writer's flush performs, modelled
with `mergeSort`) agrees with the insertion sort: both are sorted
permutations of the buffer and `≤` on `Nat` is antisymmetric. -/
theorem sortPost_eq_ins (l : List Nat) : sortPost l = insSort l :=
  List.eq_of_perm_of_sorted
    ((List.mergeSort_perm l _).trans (insSort_perm l).symm)
    (sortPost_pairwise l) (insSort_sorted l)

/-- `mergePostModel` with explicit fuel, so the kernel can evaluate it;
fuel above the stream length is exact (proved below). -/
def groupPostF : Nat → List Nat → List (Nat × List Nat)
  | 0, _ => [((1 <<< 24) - 1, [])]
  | _ + 1, [] => [((1 <<< 24) - 1, [])]
  | f + 1, e :: rest =>
    if trigramOf e = (1 <<< 24) - 1 then [((1 <<< 24) - 1, [])]
    else
      (trigramOf e,
        fileIdOf e ::
          (rest.takeWhile (fun p => trigramOf p = trigramOf e)).map fileIdOf) ::
      groupPostF f (rest.dropWhile (fun p => trigramOf p = trigramOf e))

set_option maxRecDepth 10000 in
theorem groupPostF_eq : ∀ (fuel : Nat) (l : List Nat),
    l.length < fuel → groupPostF fuel l = mergePostModel l := by
  intro fuel
  induction fuel with
  | zero => intro l h; omega
  | succ f ih =>
    intro l h
    match l with
    | [] => rw [groupPostF, mergePostModel]
    | e :: rest =>
      rw [groupPostF, mergePostModel]
      by_cases hs : trigramOf e = (1 <<< 24) - 1
      · rw [if_pos hs, if_pos hs]
      · rw [if_neg hs, if_neg hs, ih]
        have hd :=
          (List.dropWhile_sublist (p := fun p => trigramOf p = trigramOf e)
            (l := rest)).length_le
        simp only [List.length_cons] at h
        omega

/-- Kernel-evaluable form of `flushPostingLists` (`heapMerge` is already
fuel-based, so only the sort and the grouping need replacing). -/
def flushEval (s : WState) : List (Nat × List Nat) :=
  groupPostF ((heapMerge (s.post_files ++ [insSort s.post])).length + 1)
    (heapMerge (s.post_files ++ [insSort s.post]))

theorem flushPostingLists_eval (s : WState) :
    flushPostingLists s = flushEval s := by
  rw [flushPostingLists, sortPost_eq_ins, flushEval, groupPostF_eq]
  omega

/-- The six files of the older index A of the merge scenario of
`src/tests/merge_test.rs`, in the sorted name order `build_index` adds
them: /a/x "hello world", /a/y "goodbye world", /b/xx "now is the time",
/b/xy "for all good men", /c/ab "give me all the potatoes", /c/de
"or give me death now". -/
def filesA6 : List (List Nat × List Nat) :=
  [([47, 97, 47, 120], [104, 101, 108, 108, 111, 32, 119, 111, 114, 108, 100]),
   ([47, 97, 47, 121], [103, 111, 111, 100, 98, 121, 101, 32, 119, 111, 114, 108, 100]),
   ([47, 98, 47, 120, 120], [110, 111, 119, 32, 105, 115, 32, 116, 104, 101, 32, 116, 105, 109, 101]),
   ([47, 98, 47, 120, 121], [102, 111, 114, 32, 97, 108, 108, 32, 103, 111, 111, 100, 32, 109, 101, 110]),
   ([47, 99, 47, 97, 98], [103, 105, 118, 101, 32, 109, 101, 32, 97, 108, 108, 32, 116, 104, 101, 32, 112, 111, 116, 97, 116, 111, 101, 115]),
   ([47, 99, 47, 100, 101], [111, 114, 32, 103, 105, 118, 101, 32, 109, 101, 32, 100, 101, 97, 116, 104, 32, 110, 111, 119])]

/-- The four files of the newer index B: /b/www "world wide indeed",
/b/xx "no, not now", /b/yy "first potatoes, now liberty?", /cc
"come to the aid of his potatoes". -/
def filesB6 : List (List Nat × List Nat) :=
  [([47, 98, 47, 119, 119, 119], [119, 111, 114, 108, 100, 32, 119, 105, 100, 101, 32, 105, 110, 100, 101, 101, 100]),
   ([47, 98, 47, 120, 120], [110, 111, 44, 32, 110, 111, 116, 32, 110, 111, 119]),
   ([47, 98, 47, 121, 121], [102, 105, 114, 115, 116, 32, 112, 111, 116, 97, 116, 111, 101, 115, 44, 32, 110, 111, 119, 32, 108, 105, 98, 101, 114, 116, 121, 63]),
   ([47, 99, 99], [99, 111, 109, 101, 32, 116, 111, 32, 116, 104, 101, 32, 97, 105, 100, 32, 111, 102, 32, 104, 105, 115, 32, 112, 111, 116, 97, 116, 111, 101, 115])]

/-- A's name list in file-id order. -/
def namesA6 : List (List Nat) :=
  [[47, 97, 47, 120], [47, 97, 47, 121], [47, 98, 47, 120, 120],
   [47, 98, 47, 120, 121], [47, 99, 47, 97, 98], [47, 99, 47, 100, 101]]

/-- B's name list in file-id order. -/
def namesB6 : List (List Nat) :=
  [[47, 98, 47, 119, 119, 119], [47, 98, 47, 120, 120],
   [47, 98, 47, 121, 121], [47, 99, 99]]

/-- B's indexed paths "/b" and "/cc". -/
def paths2B : List (List Nat) :=
  [[47, 98], [47, 99, 99]]

/-- A's posting lists as the writer model produces them (verified by the
first conjunct of the claim theorem). -/
def postsA6 : List (Nat × List Nat) :=
  [(2122092, [3, 4]), (2122853, [5]), (2123625, [5]), (2123631, [3]),
   (2124147, [2]), (2125157, [3, 4, 5]), (2125423, [5]), (2125935, [4]),
   (2126952, [2, 4]), (2126953, [2]), (2127727, [0, 1]), (6384748, [3, 4]),
   (6386792, [5]), (6386799, [4]), (6453605, [1]), (6561901, [3]), (6578809,
   [1]), (6579553, [5]), (6627425, [4]), (6627428, [5]), (6627437, [4, 5]),
   (6627440, [4]), (6627444, [2]), (6627447, [1]), (6644084, [5]), (6646892,
   [0]), (6713202, [3]), (6777206, [4, 5]), (6778735, [1, 3]), (6824046,
   [5]), (6841632, [2, 4]), (6841708, [0]), (6909285, [2]), (6910752, [2]),
   (6911589, [4, 5]), (7086183, [3]), (7086196, [4]), (7105568, [3, 4]),
   (7105647, [0]), (7106336, [0]), (7169312, [4, 5]), (7169390, [3]),
   (7237495, [2, 5]), (7282807, [0]), (7300128, [3]), (7300194, [1]),
   (7300467, [4]), (7303012, [1, 3]), (7303712, [3, 5]), (7303788, [0, 1]),
   (7304289, [4]), (7304992, [2]), (7368564, [4]), (7479393, [3]), (7479399,
   [5]), (7498852, [0, 1]), (7544948, [2]), (7627124, [4]), (7628832, [5]),
   (7628901, [2, 4]), (7629165, [2]), (7630693, [4]), (7759136, [4, 5]),
   (7807081, [2]), (7827314, [0, 1]), (7955744, [1]), (16777215, [])]

/-- B's posting lists as the writer model produces them. -/
def postsB6 : List (Nat × List Nat) :=
  [(2122089, [3]), (2123881, [3]), (2124142, [0]), (2124905, [2]), (2125423,
   [1, 2]), (2125670, [3]), (2125935, [2, 3]), (2126952, [3]), (2126959,
   [3]), (2127721, [0]), (2891886, [1, 2]), (6383972, [3]), (6386799, [2,
   3]), (6448498, [2]), (6516589, [3]), (6561903, [3]), (6561911, [0]),
   (6579488, [0]), (6579557, [0]), (6627425, [3]), (6627433, [0]), (6627444,
   [3]), (6645092, [0]), (6648436, [2]), (6648620, [2]), (6692968, [3]),
   (6711666, [2]), (6841632, [3]), (6842739, [3]), (6906469, [2]), (6906912,
   [3]), (6906981, [0]), (6909540, [0]), (6910579, [2]), (6910752, [3]),
   (7103520, [0]), (7104866, [2]), (7169312, [3]), (7234661, [0]), (7237420,
   [1]), (7237492, [1]), (7237495, [1, 2]), (7282804, [3]), (7285792, [1]),
   (7300467, [2, 3]), (7300640, [3]), (7302501, [3]), (7303788, [0]),
   (7304224, [1]), (7304289, [2, 3]), (7304992, [2]), (7368564, [2, 3]),
   (7498852, [0]), (7500660, [2]), (7500921, [2]), (7544944, [3]), (7547936,
   [2]), (7566368, [2]), (7610478, [1]), (7610480, [2]), (7627124, [2, 3]),
   (7628901, [3]), (7630624, [3]), (7630693, [2, 3]), (7633215, [2]),
   (7807084, [2]), (7825764, [0]), (7827314, [0]), (16777215, [])]

/-- The merged posting lists (verified by the merge conjunct of the
claim theorem). -/
def postsC6 : List (Nat × List Nat) :=
  [(2122089, [7]), (2122092, [5]), (2122853, [6]), (2123625, [6]), (2123881,
   [7]), (2124142, [2]), (2124905, [4]), (2125157, [5, 6]), (2125423, [3, 4,
   6]), (2125670, [7]), (2125935, [4, 5, 7]), (2126952, [5, 7]), (2126959,
   [7]), (2127721, [2]), (2127727, [0, 1]), (2891886, [3, 4]), (6383972,
   [7]), (6384748, [5]), (6386792, [6]), (6386799, [4, 5, 7]), (6448498,
   [4]), (6453605, [1]), (6516589, [7]), (6561903, [7]), (6561911, [2]),
   (6578809, [1]), (6579488, [2]), (6579553, [6]), (6579557, [2]), (6627425,
   [5, 7]), (6627428, [6]), (6627433, [2]), (6627437, [5, 6]), (6627440,
   [5]), (6627444, [7]), (6627447, [1]), (6644084, [6]), (6645092, [2]),
   (6646892, [0]), (6648436, [4]), (6648620, [4]), (6692968, [7]), (6711666,
   [4]), (6777206, [5, 6]), (6778735, [1]), (6824046, [6]), (6841632, [5,
   7]), (6841708, [0]), (6842739, [7]), (6906469, [4]), (6906912, [7]),
   (6906981, [2]), (6909540, [2]), (6910579, [4]), (6910752, [7]), (6911589,
   [5, 6]), (7086196, [5]), (7103520, [2]), (7104866, [4]), (7105568, [5]),
   (7105647, [0]), (7106336, [0]), (7169312, [5, 6, 7]), (7234661, [2]),
   (7237420, [3]), (7237492, [3]), (7237495, [3, 4, 6]), (7282804, [7]),
   (7282807, [0]), (7285792, [3]), (7300194, [1]), (7300467, [4, 5, 7]),
   (7300640, [7]), (7302501, [7]), (7303012, [1]), (7303712, [6]), (7303788,
   [0, 1, 2]), (7304224, [3]), (7304289, [4, 5, 7]), (7304992, [4]),
   (7368564, [4, 5, 7]), (7479399, [6]), (7498852, [0, 1, 2]), (7500660,
   [4]), (7500921, [4]), (7544944, [7]), (7547936, [4]), (7566368, [4]),
   (7610478, [3]), (7610480, [4]), (7627124, [4, 5, 7]), (7628832, [6]),
   (7628901, [5, 7]), (7630624, [7]), (7630693, [4, 5, 7]), (7633215, [4]),
   (7759136, [5, 6]), (7807084, [4]), (7825764, [2]), (7827314, [0, 1, 2]),
   (7955744, [1])]

/-- A's docid map: ids 0-1 (/a/x, /a/y) survive as 0-1, ids 2-3 are
shadowed by B's path /b, ids 4-5 (/c/ab, /c/de) survive as 5-6. -/
def mapA6 : List IdRange :=
  [⟨0, 2, 0⟩, ⟨4, 6, 5⟩]

/-- B's docid map: ids 0-2 become 2-4 and id 3 (/cc) becomes 7. -/
def mapB6 : List IdRange :=
  [⟨0, 3, 2⟩, ⟨3, 4, 7⟩]

/-- C's merged name list. -/
def namesC6 : List (List Nat) :=
  [[47, 97, 47, 120], [47, 97, 47, 121], [47, 98, 47, 119, 119, 119],
   [47, 98, 47, 120, 120], [47, 98, 47, 121, 121], [47, 99, 47, 97, 98],
   [47, 99, 47, 100, 101], [47, 99, 99]]

set_option maxRecDepth 100000 in
/-- Claim C6: merging index A (paths /a, /b, /c) with the newer index B
(paths /b, /cc) yields the name list /a/x, /a/y, /b/www, /b/xx, /b/yy,
/c/ab, /c/de, /cc — B's names shadowing A's under /b — and, for every
trigram of either index, a merged posting list equal to the sorted union
of the remapped A-survivor ids and the remapped B ids; in particular the
list of trigram "now" (0x6e6f77 = 7237495) is [3, 4, 6].  The posting
lists of A and B are computed by the embedded writer from the scenario's
file contents. -/
theorem claim_C6_merge_scenario :
    flushPostingLists (processFiles filesA6) = postsA6 ∧
    flushPostingLists (processFiles filesB6) = postsB6 ∧
    mergeMaps namesA6 namesB6 paths2B = some (8, mapA6, mapB6) ∧
    mergeIndex namesA6 postsA6 namesB6 postsB6 paths2B =
      some (namesC6, postsC6) ∧
    listLookup postsC6 7237495 = [3, 4, 6] ∧
    (∀ t ∈ postsA6.map Prod.fst ++ postsB6.map Prod.fst, t ≠ 16777215 →
      listLookup postsC6 t =
        sortPost (remapList mapA6 (listLookup postsA6 t) ++
          remapList mapB6 (listLookup postsB6 t))) := by
  have hall : ∀ t ∈ postsA6.map Prod.fst ++ postsB6.map Prod.fst,
      t ≠ 16777215 →
      listLookup postsC6 t =
        insSort (remapList mapA6 (listLookup postsA6 t) ++
          remapList mapB6 (listLookup postsB6 t)) := by decide
  refine ⟨?_, ?_, rfl, rfl, rfl, ?_⟩
  · rw [flushPostingLists_eval]
    decide
  · rw [flushPostingLists_eval]
    decide
  · intro t ht hne
    rw [sortPost_eq_ins]
    exact hall t ht hne

/-- Witness for claim C6: the union property applied at the trigram
"now". -/
theorem claim_C6_merge_scenario_witness :
    listLookup postsC6 7237495 =
      sortPost (remapList mapA6 (listLookup postsA6 7237495) ++
        remapList mapB6 (listLookup postsB6 7237495)) :=
  claim_C6_merge_scenario.2.2.2.2.2 7237495 (by decide) (by decide)

end Codesearch
